import Mathlib

/-!
Verification of the agentic tool-calling conversation orchestrator of the
HUE-AI repository (`src/multi_disease_detector/`).

The Python source is shallowly embedded: Python `str` is Lean `String`
(`str.lower()` becomes an ASCII character map, which agrees with Python on
all text appearing in the fixed keyword lists; `in` becomes list-infix on
the character data), the mutable database session is explicit state
passing on a `Db` record, raised exceptions become `Except`/`Option`
results, and the async generator `generate_response_with_tools` becomes a
function from a model-behavior oracle (the sequence of model responses)
and a tool-execution oracle to the list of events it yields.
-/

namespace HueAI

/-! ## String primitives

`pyLower` embeds Python `str.lower()` restricted to ASCII (the risk
keyword lists and level names are all ASCII).  `pyIn needle hay` embeds
the Python expression `needle in hay` on strings: contiguous substring
containment. -/

def pyLower (s : String) : String :=
  String.mk (s.data.map Char.toLower)

def pyIn (needle hay : String) : Bool :=
  decide (needle.data <:+: hay.data)

/-! ## Risk classifier

`calculate_risk_assessment` from `service.py` lines 355-399, keyword
lists copied verbatim. -/

def emergency_keywords : List String :=
  ["chest pain", "severe pain", "difficulty breathing", "unconscious",
   "bleeding heavily", "stroke", "heart attack", "emergency", "911"]

def high_risk_keywords : List String :=
  ["blood pressure", "diabetes", "chronic", "severe", "urgent",
   "worsening", "persistent", "infection", "high fever"]

def medium_risk_keywords : List String :=
  ["pain", "discomfort", "symptoms", "condition", "medication",
   "treatment", "concern", "monitor"]

def containsAnyKeyword (kws : List String) (t : String) : Bool :=
  kws.any (fun k => pyIn k t)

def calculate_risk_assessment (message : String) (patient_context : String) :
    String × Bool :=
  let combined_text := pyLower (message ++ " " ++ patient_context)
  if containsAnyKeyword emergency_keywords combined_text then ("EMERGENCY", true)
  else if containsAnyKeyword high_risk_keywords combined_text then ("HIGH", true)
  else if containsAnyKeyword medium_risk_keywords combined_text then ("MEDIUM", true)
  else ("LOW", false)

/-! Specification-side classifier, written from the spec's words (§4.5):
an enumerated level, strict precedence EMERGENCY > HIGH > MEDIUM > LOW
over case-insensitive substring matching, `shouldSeeDoctor` true for
every level except LOW.  It exists to be compared with
`calculate_risk_assessment`, which is translated from the source. -/

inductive RiskLevel where
| LOW
| MEDIUM
| HIGH
| EMERGENCY
deriving DecidableEq, Repr

def classifySpec (finalText contextText : String) : RiskLevel :=
  let t := pyLower (finalText ++ " " ++ contextText)
  if containsAnyKeyword emergency_keywords t then .EMERGENCY
  else if containsAnyKeyword high_risk_keywords t then .HIGH
  else if containsAnyKeyword medium_risk_keywords t then .MEDIUM
  else .LOW

def RiskLevel.label : RiskLevel → String
| .LOW => "LOW"
| .MEDIUM => "MEDIUM"
| .HIGH => "HIGH"
| .EMERGENCY => "EMERGENCY"

def RiskLevel.shouldSeeDoctor : RiskLevel → Bool
| .LOW => false
| _ => true

/-! ## Session store

`ChatSession` rows and the message table, with an explicit clock value
`now` standing for `datetime.utcnow()` and a `nextId` counter standing
for the generated UUID primary keys.  `get_or_create_session` is
`service.py` lines 64-121; it returns the (possibly updated) store
together with either the session or the `ValueError` message it raises.
Both failure paths in the source raise before any `db.add`/`db.commit`,
which the embedding reflects by returning the store unchanged. -/

structure DbSession where
  id : Nat
  patient_id : Nat
  title : String
  status : String
  created_at : Nat
  updated_at : Nat
  last_message_at : Nat
deriving DecidableEq, Repr

structure DbMessage where
  session_id : Nat
  role : String
  content : String
  risk_assessment : Option String
  tools_used : Option (List String)
deriving DecidableEq, Repr

structure Db where
  sessions : List DbSession
  messages : List DbMessage
  nextId : Nat
deriving DecidableEq, Repr

def get_or_create_session (db : Db) (session_id : Option Nat)
    (patient_id : Option Nat) (first_message : String) (now : Nat) :
    Db × Except String DbSession :=
  match session_id with
  | some sid =>
    match db.sessions.find? (fun s => s.id == sid) with
    | none => (db, .error ("Session " ++ toString sid ++ " not found"))
    | some s =>
      let s' := { s with updated_at := now, last_message_at := now }
      ({ db with sessions := db.sessions.map (fun t => if t.id == sid then s' else t) },
       .ok s')
  | none =>
    match patient_id with
    | none => (db, .error "patient_id is required for new sessions")
    | some pid =>
      let title :=
        if first_message.length > 100 then first_message.take 100 ++ "..."
        else first_message
      let ns : DbSession :=
        { id := db.nextId, patient_id := pid, title := title, status := "ACTIVE",
          created_at := now, updated_at := now, last_message_at := now }
      ({ db with sessions := db.sessions ++ [ns], nextId := db.nextId + 1 }, .ok ns)

/-! The router (`router.py` lines 378-389) maps a `ValueError` escaping the
service layer to an HTTP 400 response carrying the message, and any other
exception to HTTP 500. -/

def unified_chat_status {α : Type} (result : Except String α) : Nat :=
  match result with
  | .error _ => 400
  | .ok _ => 200

/-! ## Agent loop data

A model response (`ModelTurn`) is what one `client.chat.completions.create`
call produces: a turn finishing with `stop`, a turn requesting tool calls,
or a raised exception (`failure`).  Content is carried as the list of
streamed deltas; the non-streaming API surface of the same behavior sees
their concatenation as `message.content`.  A requested call carries the
raw `arguments` string; `argsErr = some e` means `json.loads` on it raises
with message `e` (the parsed object is identified with its source text, so
the tool oracle receives the raw string). -/

structure ToolCallSpec where
  id : String
  name : String
  args : String
  argsErr : Option String
deriving DecidableEq, Repr

inductive ModelTurn where
| stop (deltas : List String)
| toolCalls (deltas : List String) (calls : List ToolCallSpec)
| failure (msg : String)
deriving DecidableEq, Repr

/-- The events yielded by `generate_response_with_tools` (timestamps, which
every yielded dict also carries, are irrelevant to the claims and elided). -/
inductive Event where
| thinking (data : String)
| content (data : String)
| tool_call (tool_name : String) (args : String) (call_id : String)
| tool_result (tool_name : String) (call_id : String) (result : String) (success : Bool)
| done (message : String) (tools_used : List String)
| error (data : String)
deriving DecidableEq, Repr

/-- One entry of the in-memory `messages` list handed to the model. -/
inductive Msg where
| system (content : String)
| user (content : String)
| assistant (content : String)
| assistantToolCalls (content : String) (calls : List ToolCallSpec)
| tool (tool_call_id : String) (content : String)
deriving DecidableEq, Repr

inductive Outcome where
| done (message : String) (tools_used : List String) (viaStop : Bool)
| failed (msg : String)
deriving DecidableEq, Repr

structure RunResult where
  events : List Event
  outcome : Outcome
  modelCalls : Nat
  msgs : List Msg
  trace : List (List Msg)
deriving DecidableEq, Repr

/-- `"error" not in tool_result.lower()` (service.py lines 654 and 754). -/
def successFlag (result : String) : Bool :=
  !(pyIn "error" (pyLower result))

def maxIterFallback : String :=
  "I\x27ve processed your request with the available tools."

def analyzingText : String :=
  "Analyzing your question and determining the best approach..."

def synthesizingText : String :=
  "Synthesizing all the information gathered..."

def underscoreToSpace (s : String) : String :=
  String.mk (s.data.map (fun c => if c = '_' then ' ' else c))

/-! ## Tool-call processing inside one model turn

`runCalls` embeds the `for tool_call in ...` bodies: service.py lines
620-677 (streaming) and 730-764 (non-streaming).  Oracles: `tex name args`
is the string `execute_tool` returns (that coroutine never raises, see
`execute_tool` below), and `artType result` is `some t` when
`json.loads(result)` succeeds and yields a dict whose `"type"` is one of
the three artifact kinds `t` (the streaming branch then emits an extra
thinking event).  `json.dumps(tool_args, indent=2)` in the non-streaming
thinking text is identified with the raw arguments text.  A call whose
arguments fail to parse makes `json.loads` raise before any event for
that call is yielded; the exception aborts the whole turn (`some e` in
the fourth component), to be turned into an `error` event by the outer
`except` of the generator. -/

def streamCallEvents (artType : String → Option String) (c : ToolCallSpec)
    (result : String) : List Event :=
  [.thinking ("I need to use the \x27" ++ c.name ++ "\x27 tool to help answer your question."),
   .tool_call c.name c.args c.id,
   .tool_result c.name c.id result (successFlag result)]
  ++ (match artType result with
      | some t =>
        [.thinking ("I\x27ll now create a detailed " ++ underscoreToSpace t ++
           " document for you...")]
      | none => [])

def aggCallEvents (c : ToolCallSpec) (result : String) : List Event :=
  [.thinking ("Using the \x27" ++ c.name ++ "\x27 tool: " ++ c.args),
   .tool_result c.name c.id result (successFlag result)]

def runCalls (streaming : Bool) (tex : String → String → String)
    (artType : String → Option String) :
    List ToolCallSpec → List Event × List Msg × List String × Option String
| [] => ([], [], [], none)
| c :: cs =>
  match c.argsErr with
  | some e => ([], [], [], some e)
  | none =>
    let result := tex c.name c.args
    let evs := if streaming then streamCallEvents artType c result
               else aggCallEvents c result
    let rest := runCalls streaming tex artType cs
    (evs ++ rest.1, Msg.tool c.id result :: rest.2.1,
     c.name :: rest.2.2.1, rest.2.2.2)

/-! ## The agent loop

`loopGo streaming tex artType turns fuel i msgs acc used trace` embeds the
`while iteration < max_tool_iterations` loop of
`generate_response_with_tools` (service.py lines 551-804) from the state
where `fuel` iterations remain, the next model call is the `i`-th overall
and will be answered by `turns i`, `messages = msgs`,
`accumulated_content = acc`, `tools_used = used`.  `trace` records the
message list at the moment of every model invocation made so far.  All
events yielded from this point on are returned; an exception escaping to
the generator's outer `except` (model-call failure, or `json.loads`
failure on a call's arguments) becomes a final `error` event. -/

def loopGo (streaming : Bool) (tex : String → String → String)
    (artType : String → Option String) (turns : Nat → ModelTurn) :
    Nat → Nat → List Msg → String → List String → List (List Msg) → RunResult
| 0, _, msgs, acc, used, trace =>
  { events := [.thinking synthesizingText,
               .done (if acc = "" then maxIterFallback else acc) used],
    outcome := .done (if acc = "" then maxIterFallback else acc) used false,
    modelCalls := 0, msgs := msgs, trace := trace }
| fuel + 1, i, msgs, acc, used, trace =>
  let trace' := trace ++ [msgs]
  match turns i with
  | .failure e =>
    { events := [.error ("Error: " ++ e)], outcome := .failed ("Error: " ++ e),
      modelCalls := 1, msgs := msgs, trace := trace' }
  | .stop deltas =>
    let content := String.join deltas
    let evs :=
      if streaming then
        (deltas.filter (· ≠ "")).map Event.content ++ [.done (acc ++ content) used]
      else [Event.content content, .done (acc ++ content) used]
    { events := evs, outcome := .done (acc ++ content) used true,
      modelCalls := 1, msgs := msgs, trace := trace' }
  | .toolCalls deltas calls =>
    let content := String.join deltas
    if calls.isEmpty then
      if streaming then
        -- finish_reason "tool_calls" with no accumulated calls: the content
        -- deltas were already yielded but never added to accumulated_content,
        -- and the while loop simply runs another iteration.
        let r := loopGo streaming tex artType turns fuel (i + 1) msgs acc used trace'
        { r with events := (deltas.filter (· ≠ "")).map Event.content ++ r.events,
                 modelCalls := r.modelCalls + 1 }
      else
        -- `message.tool_calls` empty: the `else` branch treats the turn as final.
        { events := [Event.content content, .done (acc ++ content) used],
          outcome := .done (acc ++ content) used true,
          modelCalls := 1, msgs := msgs, trace := trace' }
    else
      let contentEvs :=
        if streaming then (deltas.filter (· ≠ "")).map Event.content else []
      let msgs' := msgs ++ [Msg.assistantToolCalls content calls]
      let cr := runCalls streaming tex artType calls
      match cr.2.2.2 with
      | some e =>
        { events := contentEvs ++ cr.1 ++ [.error ("Error: " ++ e)],
          outcome := .failed ("Error: " ++ e), modelCalls := 1,
          msgs := msgs' ++ cr.2.1, trace := trace' }
      | none =>
        let r := loopGo streaming tex artType turns fuel (i + 1)
                   (msgs' ++ cr.2.1) (acc ++ content) (used ++ cr.2.2.1) trace'
        { r with events := contentEvs ++ cr.1 ++ r.events,
                 modelCalls := r.modelCalls + 1 }

/-- `generate_response_with_tools` (service.py lines 518-812): the initial
thinking event followed by the loop, starting from the supplied message
list with empty accumulated content and no tools used. -/
def generate_response_with_tools (streaming : Bool)
    (tex : String → String → String) (artType : String → Option String)
    (turns : Nat → ModelTurn) (max_tool_iterations : Nat)
    (messages : List Msg) : RunResult :=
  let r := loopGo streaming tex artType turns max_tool_iterations 0 messages "" [] []
  { r with events := .thinking analyzingText :: r.events }

/-! ## Tool executor

`execute_tool` from `tool_service.py` lines 221-275.  The four concrete
tool implementations are abstracted as an oracle
`handlers name args : Except String String` — `.error e` meaning the
implementation raises with message `e`.  The routing, the unknown-tool
payload, and the catch-all `except` that serializes a raised exception
into `json.dumps({"error": ...})` are embedded concretely, so
`execute_tool` is a total function: no exception crosses its boundary. -/

def jsonEscapeChar (c : Char) : List Char :=
  if c = '\\' then ['\\', '\\']
  else if c = '"' then ['\\', '"']
  else if c = '\n' then ['\\', 'n']
  else if c = '\t' then ['\\', 't']
  else if c = '\r' then ['\\', 'r']
  else [c]

/-- `json.dumps({"error": msg})`. -/
def jsonErrorDump (msg : String) : String :=
  "\x7b\"error\": \"" ++ String.mk (msg.data.flatMap jsonEscapeChar) ++ "\"\x7d"

def knownToolNames : List String :=
  ["tavily_web_search", "generate_lab_explanation",
   "generate_imaging_explanation", "generate_medical_summary"]

def execute_tool (handlers : String → String → Except String String)
    (tool_name : String) (args : String) : String :=
  if tool_name ∈ knownToolNames then
    match handlers tool_name args with
    | .ok r => r
    | .error e => jsonErrorDump ("Error executing tool " ++ tool_name ++ ": " ++ e)
  else jsonErrorDump ("Unknown tool: " ++ tool_name)

/-! ## Delivery adapters

The aggregate consumer (`process_chat_request_with_tools`, service.py
lines 862-882, and identically `process_openai_chat_request` in
`openai_service.py` lines 411-421) drains the generator: thinking events
are collected into a summary, `content` events concatenate into
`final_message`, a `done` event overwrites `final_message` and sets
`tools_used`; `tool_call`, `tool_result` (beyond artifact scanning) and
`error` events fall through unhandled. -/

def aggregateDrain : List Event → String → List String → String × List String
| [], fm, tu => (fm, tu)
| .content d :: es, fm, tu => aggregateDrain es (fm ++ d) tu
| .done m t :: es, _, _ => aggregateDrain es m t
| _ :: es, fm, tu => aggregateDrain es fm tu

/-- `save_chat_exchange_with_metadata` (service.py lines 919-980): appends
the USER message and the ASSISTANT message, whose metadata records the
risk level and the `tools_used` list, in one transaction. -/
def save_chat_exchange_with_metadata (db : Db) (session_id : Nat)
    (user_message assistant_message : String) (risk_assessment : String)
    (tools_used : List String) : Db :=
  { db with messages := db.messages ++
      [{ session_id := session_id, role := "USER", content := user_message,
         risk_assessment := none, tools_used := none },
       { session_id := session_id, role := "ASSISTANT", content := assistant_message,
         risk_assessment := some risk_assessment, tools_used := some tools_used }] }

structure ChatResponseWithArtifacts where
  session_id : Nat
  message : String
  risk_assessment : String
  should_see_doctor : Bool
  tools_used : List String
deriving DecidableEq, Repr

/-- `process_chat_request_with_tools` (service.py lines 815-916).  Context
assembly (`build_context_from_data`), history retrieval and
`build_chat_messages` are upstream of the claims verified here, so the
assembled `patient_context` and the initial model message list are taken
as inputs.  The exchange is saved unconditionally after the generator is
drained — including when the generator ended with an `error` event, which
the drain loop ignores. -/
def process_chat_request_with_tools (tex : String → String → String)
    (artType : String → Option String) (turns : Nat → ModelTurn)
    (max_tool_iterations : Nat) (db : Db) (session_id : Option Nat)
    (patient_id : Option Nat) (message : String) (patient_context : String)
    (initMsgs : List Msg) (now : Nat) :
    Db × Except String ChatResponseWithArtifacts :=
  match get_or_create_session db session_id patient_id message now with
  | (db0, .error e) => (db0, .error e)
  | (db0, .ok sess) =>
    let r := generate_response_with_tools false tex artType turns
               max_tool_iterations initMsgs
    let drained := aggregateDrain r.events "" []
    let risk := calculate_risk_assessment drained.1 patient_context
    let db1 := save_chat_exchange_with_metadata db0 sess.id message drained.1
                 risk.1 drained.2
    (db1, .ok { session_id := sess.id, message := drained.1,
                risk_assessment := risk.1, should_see_doctor := risk.2,
                tools_used := drained.2 })

/-- The tool-enabled branch of `process_openai_chat_request`
(`openai_service.py` lines 405-463): drain the aggregate generator, then
classify risk on the final message; the returned tuple is (persisted
assistant content, risk level, should-see-doctor flag, tools used). -/
def process_openai_chat_request (tex : String → String → String)
    (artType : String → Option String) (turns : Nat → ModelTurn)
    (max_tool_iterations : Nat) (initMsgs : List Msg)
    (patient_context : String) : String × String × Bool × List String :=
  let r := generate_response_with_tools false tex artType turns
             max_tool_iterations initMsgs
  let drained := aggregateDrain r.events "" []
  let risk := calculate_risk_assessment drained.1 patient_context
  (drained.1, risk.1, risk.2, drained.2)

structure StreamSaved where
  content : String
  risk_assessment : String
  should_see_doctor : Bool
  tools_used : List String
deriving DecidableEq, Repr

/-- The event relay of `process_openai_chat_request_streaming`
(`openai_service.py` lines 641-742): every generator event is forwarded as
a wire chunk; `content` deltas accumulate, `tool_result` events append the
tool name, and the `done` event triggers risk classification over the
*locally* accumulated content, persistence, the final chunk and the
`[DONE]` sentinel, then breaks.  If the generator ends without a `done`
event (an `error` event, which no branch handles), nothing is persisted. -/
def streamingDrain (patient_context : String) :
    List Event → String → List String → Option StreamSaved
| [], _, _ => none
| .content d :: es, acc, tu => streamingDrain patient_context es (acc ++ d) tu
| .tool_result n _ _ _ :: es, acc, tu =>
  streamingDrain patient_context es acc (tu ++ [n])
| .done _ t :: _, acc, _ =>
  let risk := calculate_risk_assessment acc patient_context
  some { content := acc, risk_assessment := risk.1,
         should_see_doctor := risk.2, tools_used := t }
| _ :: es, acc, tu => streamingDrain patient_context es acc tu

def process_openai_chat_request_streaming (tex : String → String → String)
    (artType : String → Option String) (turns : Nat → ModelTurn)
    (max_tool_iterations : Nat) (initMsgs : List Msg)
    (patient_context : String) : Option StreamSaved :=
  streamingDrain patient_context
    (generate_response_with_tools true tex artType turns max_tool_iterations
       initMsgs).events "" []

/-! ## Event measurements and turn predicates used by the claim statements -/

def callIdsOf (es : List Event) : List String :=
  es.filterMap fun e => match e with
  | .tool_call _ _ i => some i
  | _ => none

def resIdsOf (es : List Event) : List String :=
  es.filterMap fun e => match e with
  | .tool_result _ i _ _ => some i
  | _ => none

def resNamesOf (es : List Event) : List String :=
  es.filterMap fun e => match e with
  | .tool_result n _ _ _ => some n
  | _ => none

def contentConcatOf (es : List Event) : String :=
  String.join (es.filterMap fun e => match e with
  | .content d => some d
  | _ => none)

def Event.isErrorEvent : Event → Bool
| .error _ => true
| _ => false

def Event.isDoneEvent : Event → Bool
| .done _ _ => true
| _ => false

def Event.isToolEvent : Event → Bool
| .tool_call _ _ _ => true
| .tool_result _ _ _ _ => true
| _ => false

/-- Each tool_result event's success flag is the substring test applied to
its own payload. -/
def Event.flagMatchesPayload : Event → Bool
| .tool_result _ _ res s => s == successFlag res
| _ => true

/-- The model response neither raises nor contains a tool call whose
arguments fail to parse as JSON. -/
def ModelTurn.noRaise : ModelTurn → Bool
| .stop _ => true
| .toolCalls _ cs => cs.all (fun c => c.argsErr.isNone)
| .failure _ => false

/-- A tool-call response with at least one call, all of whose argument
strings parse. -/
def ModelTurn.isActiveToolTurn : ModelTurn → Bool
| .toolCalls _ cs => !cs.isEmpty && cs.all (fun c => c.argsErr.isNone)
| _ => false

/-- A well-formed model response: a stop, or a nonempty tool-call turn
whose argument strings all parse. -/
def ModelTurn.wf : ModelTurn → Bool
| .stop _ => true
| .toolCalls _ cs => !cs.isEmpty && cs.all (fun c => c.argsErr.isNone)
| .failure _ => false

def ModelTurn.contentStr : ModelTurn → String
| .stop ds => String.join ds
| .toolCalls ds _ => String.join ds
| .failure _ => ""

def Outcome.viaStopFlag : Outcome → Bool
| .done _ _ v => v
| .failed _ => false

def Event.isContentEvent : Event → Bool
| .content _ => true
| _ => false

/-- The final event the generator yields: the `done` payload of a completed
run, the `error` payload of an aborted one. -/
def Outcome.closer : Outcome → Event
| .done m t _ => .done m t
| .failed e => .error e

def ModelTurn.callNames : ModelTurn → List String
| .toolCalls _ cs => cs.map (fun c => c.name)
| _ => []

/-- Concatenated content of the responses to model invocations
`i, i+1, ..., i+fuel-1`. -/
def turnsContents (turns : Nat → ModelTurn) : Nat → Nat → String
| _, 0 => ""
| i, fuel + 1 => (turns i).contentStr ++ turnsContents turns (i + 1) fuel

/-- Tool names requested by the responses to model invocations
`i, ..., i+fuel-1`, in order. -/
def turnsNames (turns : Nat → ModelTurn) : Nat → Nat → List String
| _, 0 => []
| i, fuel + 1 => (turns i).callNames ++ turnsNames turns (i + 1) fuel

def isCallEventWith (i : String) : Event → Bool
| .tool_call _ _ j => j == i
| _ => false

/-- An event that carries neither content nor a terminal payload. -/
def plainEvent (e : Event) : Bool :=
  !e.isContentEvent && !e.isDoneEvent && !e.isErrorEvent

/-- The shape of a streaming-mode event list: blocks of non-tool events
surrounding adjacent `tool_call`/`tool_result` pairs that share a call id;
the first index lists those call ids in order. -/
inductive PairShape : List String → List Event → Prop where
| nil (X : List Event) (hX : X.all (fun e => !e.isToolEvent) = true) :
    PairShape [] X
| cons (i nm args nm2 res : String) (s : Bool) (X : List Event)
    (ids : List String) (rest : List Event)
    (hX : X.all (fun e => !e.isToolEvent) = true) (h : PairShape ids rest) :
    PairShape (i :: ids) (X ++ .tool_call nm args i :: .tool_result nm2 i res s :: rest)

/-! Concrete instances used by witnesses and counterexamples. -/

def cxCall : ToolCallSpec :=
  { id := "call_1", name := "tavily_web_search",
    args := "\x7b\"query\": \"flu\"\x7d", argsErr := none }

def cxCall2 : ToolCallSpec :=
  { id := "call_2", name := "tavily_web_search",
    args := "\x7b\"query\": \"fever\"\x7d", argsErr := none }

def cxBadCall : ToolCallSpec :=
  { id := "call_9", name := "tavily_web_search", args := "not json",
    argsErr := some "Expecting value: line 1 column 1 (char 0)" }

def cxTex : String → String → String := fun _ _ => "search results"

def cxArt : String → Option String := fun _ => none

/-- One searching turn, then a stop. -/
def cxTurns : Nat → ModelTurn
| 0 => .toolCalls ["Let me check."] [cxCall]
| _ => .stop ["Answer", " done."]

/-- Tool-call turns forever: the iteration budget runs out. -/
def cxTurnsBudget : Nat → ModelTurn := fun _ => .toolCalls [] [cxCall]

/-- A turn whose second call has unparseable arguments. -/
def cxTurnsBadArgs : Nat → ModelTurn
| 0 => .toolCalls [] [cxCall, cxBadCall]
| _ => .stop ["x"]

/-- The model call raises. -/
def cxTurnsRaise : Nat → ModelTurn := fun _ => .failure "APIConnectionError"

/-- The same tool invoked twice in one turn, then a stop. -/
def cxTurnsDup : Nat → ModelTurn
| 0 => .toolCalls [] [cxCall, cxCall2]
| _ => .stop ["ok"]

def cxHandlersFail : String → String → Except String String :=
  fun _ _ => .error "boom"

def cxDb : Db :=
  { sessions := [{ id := 3, patient_id := 1, title := "t", status := "ACTIVE",
                   created_at := 0, updated_at := 0, last_message_at := 0 }],
    messages := [], nextId := 4 }

/-! # Theorems -/

/-- C6: `calculate_risk_assessment` is a pure function of the final text and
context that refines the spec-side classifier: over the lowercased
(space-joined) concatenation, emergency keywords give `("EMERGENCY", true)`,
otherwise high-risk keywords give `("HIGH", true)`, otherwise medium-risk
keywords give `("MEDIUM", true)`, otherwise `("LOW", false)`; consequently
`should_see_doctor` is `true` exactly when the level is not `"LOW"`. -/
theorem C6_risk_classifier (m c : String) :
    calculate_risk_assessment m c =
      ((classifySpec m c).label, (classifySpec m c).shouldSeeDoctor) ∧
    ((calculate_risk_assessment m c).2 = true ↔
      (calculate_risk_assessment m c).1 ≠ "LOW") := by
  unfold calculate_risk_assessment classifySpec
  by_cases h1 : containsAnyKeyword emergency_keywords (pyLower (m ++ " " ++ c)) <;>
    by_cases h2 : containsAnyKeyword high_risk_keywords (pyLower (m ++ " " ++ c)) <;>
      by_cases h3 : containsAnyKeyword medium_risk_keywords (pyLower (m ++ " " ++ c)) <;>
        simp [h1, h2, h3, RiskLevel.label, RiskLevel.shouldSeeDoctor]

/-- C7: `get_or_create_session` with a supplied session id that matches no
stored session fails with the not-found `ValueError` and leaves the store
untouched; with neither a session id nor a patient id it fails with the
required-field `ValueError` and leaves the store untouched; the router maps
both to an HTTP 400 client error. -/
theorem C7_session_failures (db : Db) (sid : Nat) (pid : Option Nat)
    (fm : String) (now : Nat)
    (hmiss : db.sessions.find? (fun s => s.id == sid) = none) :
    get_or_create_session db (some sid) pid fm now =
      (db, .error ("Session " ++ toString sid ++ " not found")) ∧
    get_or_create_session db none none fm now =
      (db, .error "patient_id is required for new sessions") ∧
    unified_chat_status (get_or_create_session db (some sid) pid fm now).2 = 400 ∧
    unified_chat_status (get_or_create_session db none none fm now).2 = 400 := by
  refine ⟨?_, rfl, ?_, rfl⟩ <;> simp [get_or_create_session, hmiss, unified_chat_status]

theorem C7_session_failures_witness :
    (Db.mk [] [] 0).sessions.find? (fun s => s.id == 7) = none ∧
    get_or_create_session (Db.mk [] [] 0) (some 7) none "hi" 0 =
      (Db.mk [] [] 0, .error ("Session " ++ toString 7 ++ " not found")) :=
  ⟨rfl, (C7_session_failures (Db.mk [] [] 0) 7 none "hi" 0 rfl).1⟩

/-- C9: a session created by `get_or_create_session` stores the first
message itself as title when it has at most 100 characters, and its first
100 characters followed by `"..."` otherwise; a 250-character first message
therefore yields a title of exactly 103 characters. -/
theorem C9_session_title (db : Db) (pid : Nat) (m : String) (now : Nat)
    (db' : Db) (s : DbSession)
    (h : get_or_create_session db none (some pid) m now = (db', .ok s)) :
    s.title = (if m.length > 100 then m.take 100 ++ "..." else m) ∧
    (m.length = 250 → s.title.length = 103) := by
  simp only [get_or_create_session, Prod.mk.injEq] at h
  obtain ⟨-, h2⟩ := h
  cases h2
  constructor
  · rfl
  · intro h250
    have hgt : m.length > 100 := by omega
    simp only [hgt, if_pos]
    rw [String.length_append, String.take_eq]
    have hd : m.data.length = 250 := h250
    show (List.take 100 m.data).length + "...".length = 103
    rw [List.length_take, hd]
    decide

set_option maxRecDepth 10000 in
theorem C9_session_title_witness :
    ((String.mk (List.replicate 250 'a')).take 100 ++ "...").length = 103 := by
  have h := C9_session_title (Db.mk [] [] 0) 1 (String.mk (List.replicate 250 'a')) 0
    (Db.mk [{ id := 0, patient_id := 1,
              title := (String.mk (List.replicate 250 'a')).take 100 ++ "...",
              status := "ACTIVE", created_at := 0, updated_at := 0,
              last_message_at := 0 }] [] 1)
    { id := 0, patient_id := 1,
      title := (String.mk (List.replicate 250 'a')).take 100 ++ "...",
      status := "ACTIVE", created_at := 0, updated_at := 0, last_message_at := 0 }
    (by rfl)
  exact h.2 (by decide)

lemma all_flag_map_content (l : List String) :
    ((l.map Event.content).all Event.flagMatchesPayload) = true := by
  induction l with
  | nil => rfl
  | cons d l ih => simp [Event.flagMatchesPayload, ih]

lemma flag_runCalls (st : Bool) (tex : String → String → String)
    (artType : String → Option String) (cs : List ToolCallSpec) :
    ((runCalls st tex artType cs).1.all Event.flagMatchesPayload) = true := by
  induction cs with
  | nil => rfl
  | cons c cs ih =>
    simp only [runCalls]
    rcases h : c.argsErr with _ | e
    · simp only [h]
      cases st
      · simp [aggCallEvents, ih, Event.flagMatchesPayload]
      · rcases h2 : artType (tex c.name c.args) with _ | t <;>
          simp [streamCallEvents, h2, ih, Event.flagMatchesPayload]
    · simp [h]

lemma flag_loopGo (st : Bool) (tex : String → String → String)
    (artType : String → Option String) (turns : Nat → ModelTurn) :
    ∀ fuel i msgs acc used trace,
      ((loopGo st tex artType turns fuel i msgs acc used trace).events.all
        Event.flagMatchesPayload) = true := by
  intro fuel
  induction fuel with
  | zero => intro i msgs acc used trace; rfl
  | succ n ih =>
    intro i msgs acc used trace
    simp only [loopGo]
    rcases h : turns i with ds | ⟨ds, cs⟩ | e
    · cases st <;> simp [Event.flagMatchesPayload, all_flag_map_content]
    · by_cases hcs : cs.isEmpty
      · cases st <;>
          simp [hcs, Event.flagMatchesPayload, all_flag_map_content, ih]
      · rcases h2 : (runCalls st tex artType cs).2.2.2 with _ | e
        · cases st <;>
            simp [hcs, h2, Event.flagMatchesPayload, all_flag_map_content, ih,
              flag_runCalls]
        · cases st <;>
            simp [hcs, h2, Event.flagMatchesPayload, all_flag_map_content,
              flag_runCalls]
    · simp [Event.flagMatchesPayload]

/-- C10: in both delivery modes, every `tool_result` event the loop emits
carries `success = true` exactly when the lowercased payload does not
contain the substring `"error"` (`successFlag`), so a successful result
whose text merely mentions the word is reported as a failure. -/
theorem C10_success_flag (st : Bool) (tex : String → String → String)
    (artType : String → Option String) (turns : Nat → ModelTurn)
    (maxIter : Nat) (initMsgs : List Msg) :
    ((generate_response_with_tools st tex artType turns maxIter
        initMsgs).events.all Event.flagMatchesPayload) = true := by
  simp [generate_response_with_tools, Event.flagMatchesPayload, flag_loopGo]

/-! ## String helpers -/

lemma string_join_cons (a : String) (l : List String) :
    String.join (a :: l) = a ++ String.join l := by
  rw [String.join_eq, String.join_eq]; rfl

lemma string_join_filter_ne (l : List String) :
    String.join (l.filter (fun d => d ≠ "")) = String.join l := by
  induction l with
  | nil => rfl
  | cons a l ih =>
    by_cases ha : a = ""
    · subst ha
      rw [List.filter_cons_of_neg (by simp), ih, string_join_cons,
        String.empty_append]
    · rw [List.filter_cons_of_pos (by simp [ha]), string_join_cons,
        string_join_cons, ih]

/-! ## Facts about `runCalls` -/

/-- The events one turn's tool loop yields are never `content`, `done` or
`error` events. -/
lemma runCalls_event_kinds (st : Bool) (tex : String → String → String)
    (artType : String → Option String) (cs : List ToolCallSpec) :
    ((runCalls st tex artType cs).1.all plainEvent) = true := by
  induction cs with
  | nil => rfl
  | cons c cs ih =>
    simp only [runCalls]
    rcases h : c.argsErr with _ | e
    · simp only [h, List.all_append, Bool.and_eq_true]
      refine ⟨?_, ih⟩
      cases st
      · rfl
      · rcases h2 : artType (tex c.name c.args) with _ | t <;>
          simp [streamCallEvents, h2, plainEvent, Event.isContentEvent,
            Event.isDoneEvent, Event.isErrorEvent]
    · simp [h]

/-- When every call's arguments parse, the turn's tool loop appends one tool
message per call in order, records the names in order, and does not abort. -/
lemma runCalls_ok (st : Bool) (tex : String → String → String)
    (artType : String → Option String) (cs : List ToolCallSpec)
    (h : cs.all (fun c => c.argsErr.isNone) = true) :
    (runCalls st tex artType cs).2 =
      (cs.map (fun c => Msg.tool c.id (tex c.name c.args)),
       cs.map (fun c => c.name), none) := by
  induction cs with
  | nil => rfl
  | cons c cs ih =>
    simp only [List.all_cons, Bool.and_eq_true] at h
    simp only [runCalls]
    rcases hc : c.argsErr with _ | e
    · simp [hc, ih h.2]
    · rw [hc] at h
      simp at h

/-- When every call's arguments parse, the `tool_result` events of the
turn's tool loop carry the call names in order. -/
lemma runCalls_resNames (st : Bool) (tex : String → String → String)
    (artType : String → Option String) (cs : List ToolCallSpec)
    (h : cs.all (fun c => c.argsErr.isNone) = true) :
    resNamesOf (runCalls st tex artType cs).1 = cs.map (fun c => c.name) := by
  induction cs with
  | nil => rfl
  | cons c cs ih =>
    simp only [List.all_cons, Bool.and_eq_true] at h
    simp only [runCalls]
    rcases hc : c.argsErr with _ | e
    · simp only [hc]
      rw [show resNamesOf = List.filterMap (fun e => match e with
            | Event.tool_result n _ _ _ => some n
            | _ => none) from rfl] at ih ⊢
      rw [List.filterMap_append]
      rw [ih h.2, List.map_cons]
      cases st
      · rfl
      · rcases h2 : artType (tex c.name c.args) with _ | t <;>
          simp [streamCallEvents, h2]
    · rw [hc] at h
      simp at h

/-- Aggregate mode never emits `tool_call` events from a turn's tool loop. -/
lemma runCalls_agg_no_call_events (tex : String → String → String)
    (artType : String → Option String) (cs : List ToolCallSpec) :
    callIdsOf (runCalls false tex artType cs).1 = [] := by
  induction cs with
  | nil => rfl
  | cons c cs ih =>
    simp only [runCalls]
    rcases hc : c.argsErr with _ | e
    · simp only [hc]
      rw [show callIdsOf = List.filterMap (fun e => match e with
            | Event.tool_call _ _ i => some i
            | _ => none) from rfl] at ih ⊢
      rw [List.filterMap_append, ih]
      rfl
    · simp [hc, callIdsOf]

/-! ## The shape of a loop run's event list -/

lemma all_map_content (p : Event → Bool) (hp : ∀ d, p (Event.content d) = true)
    (l : List String) : ((l.map Event.content).all p) = true := by
  induction l with
  | nil => rfl
  | cons d l ih => simp [hp, ih]

lemma all_weaken {p q : Event → Bool} (hpq : ∀ e, p e = true → q e = true)
    {l : List Event} (h : l.all p = true) : l.all q = true := by
  rw [List.all_eq_true] at h ⊢
  exact fun e he => hpq e (h e he)

lemma plainEvent_nonTerminal (e : Event) (h : plainEvent e = true) :
    (!e.isDoneEvent && !e.isErrorEvent) = true := by
  cases e <;> simp_all [plainEvent, Event.isContentEvent, Event.isDoneEvent,
    Event.isErrorEvent]

lemma all_map_content_nonterminal (l : List String) :
    ((l.map Event.content).all (fun e => !e.isDoneEvent && !e.isErrorEvent)) = true :=
  all_map_content (fun e => !e.isDoneEvent && !e.isErrorEvent) (fun _ => rfl) l

/-- Every run of the loop yields a (possibly empty) list of non-terminal
events followed by exactly one terminal event: the `done` event of a
completed run or the `error` event of an aborted one. -/
lemma loopGo_shape (st : Bool) (tex : String → String → String)
    (artType : String → Option String) (turns : Nat → ModelTurn) :
    ∀ fuel i msgs acc used trace,
      ∃ E, (loopGo st tex artType turns fuel i msgs acc used trace).events =
          E ++ [(loopGo st tex artType turns fuel i msgs acc used trace).outcome.closer] ∧
        (E.all (fun e => !e.isDoneEvent && !e.isErrorEvent)) = true := by
  intro fuel
  induction fuel with
  | zero =>
    intro i msgs acc used trace
    exact ⟨[.thinking synthesizingText], rfl, rfl⟩
  | succ n ih =>
    intro i msgs acc used trace
    simp only [loopGo]
    rcases h : turns i with ds | ⟨ds, cs⟩ | e
    · cases st
      · exact ⟨[.content (String.join ds)], rfl, rfl⟩
      · exact ⟨(ds.filter (fun d => d ≠ "")).map Event.content, rfl,
          all_map_content_nonterminal _⟩
    · by_cases hcs : cs.isEmpty
      · cases st
        · simp only [hcs, if_true, Bool.false_eq_true, if_false]
          exact ⟨[.content (String.join ds)], rfl, rfl⟩
        · simp only [hcs, if_true]
          obtain ⟨E, hE, hall⟩ := ih (i + 1) msgs acc used (trace ++ [msgs])
          refine ⟨(ds.filter (fun d => d ≠ "")).map Event.content ++ E, ?_, ?_⟩
          · simp only [List.append_assoc]
            rw [hE]
          · rw [List.all_append, hall, all_map_content_nonterminal]
            rfl
      · simp only [hcs, Bool.false_eq_true, if_false]
        rcases herr : (runCalls st tex artType cs).2.2.2 with _ | e
        · simp only [herr]
          obtain ⟨E, hE, hall⟩ := ih (i + 1)
            (msgs ++ ([Msg.assistantToolCalls (String.join ds) cs] ++
              (runCalls st tex artType cs).2.1))
            (acc ++ String.join ds) (used ++ (runCalls st tex artType cs).2.2.1)
            (trace ++ [msgs])
          refine ⟨(if st then (ds.filter (fun d => d ≠ "")).map Event.content
              else []) ++ ((runCalls st tex artType cs).1 ++ E), ?_, ?_⟩
          · simp only [List.append_assoc]
            rw [hE]
          · rw [List.all_append, List.all_append, hall,
              all_weaken plainEvent_nonTerminal (runCalls_event_kinds st tex artType cs)]
            cases st
            · rfl
            · rw [if_pos rfl, all_map_content_nonterminal]
              rfl
        · simp only [herr]
          refine ⟨(if st then (ds.filter (fun d => d ≠ "")).map Event.content
              else []) ++ (runCalls st tex artType cs).1, ?_, ?_⟩
          · simp only [List.append_assoc]
            rfl
          · rw [List.all_append,
              all_weaken plainEvent_nonTerminal (runCalls_event_kinds st tex artType cs)]
            cases st
            · rfl
            · rw [if_pos rfl, all_map_content_nonterminal]
              rfl
    · exact ⟨[], rfl, rfl⟩

/-- The loop makes at most `fuel` model invocations. -/
lemma loopGo_modelCalls_le (st : Bool) (tex : String → String → String)
    (artType : String → Option String) (turns : Nat → ModelTurn) :
    ∀ fuel i msgs acc used trace,
      (loopGo st tex artType turns fuel i msgs acc used trace).modelCalls ≤ fuel := by
  intro fuel
  induction fuel with
  | zero => intro i msgs acc used trace; exact Nat.le_refl 0
  | succ n ih =>
    intro i msgs acc used trace
    simp only [loopGo]
    rcases h : turns i with ds | ⟨ds, cs⟩ | e
    · cases st <;> simp
    · by_cases hcs : cs.isEmpty
      · cases st <;> simp [hcs]
        · have := ih (i + 1) msgs acc used (trace ++ [msgs])
          omega
      · simp only [hcs, Bool.false_eq_true, if_false]
        rcases herr : (runCalls st tex artType cs).2.2.2 with _ | e
        · simp only [herr]
          have := ih (i + 1)
            (msgs ++ [Msg.assistantToolCalls (String.join ds) cs] ++
              (runCalls st tex artType cs).2.1)
            (acc ++ String.join ds) (used ++ (runCalls st tex artType cs).2.2.1)
            (trace ++ [msgs])
          omega
        · simp [herr]
    · simp

/-- When every remaining model response is a well-formed tool-call turn, the
loop exhausts its budget and reports the accumulated content (or the fixed
fallback sentence when none accumulated) and the accumulated tool names. -/
lemma loopGo_budget (st : Bool) (tex : String → String → String)
    (artType : String → Option String) (turns : Nat → ModelTurn) :
    ∀ fuel i msgs acc used trace,
      (∀ j, i ≤ j → j < i + fuel → (turns j).isActiveToolTurn = true) →
      (loopGo st tex artType turns fuel i msgs acc used trace).outcome =
        .done (if acc ++ turnsContents turns i fuel = "" then maxIterFallback
               else acc ++ turnsContents turns i fuel)
          (used ++ turnsNames turns i fuel) false := by
  intro fuel
  induction fuel with
  | zero =>
    intro i msgs acc used trace _
    simp [loopGo, turnsContents, turnsNames, String.append_empty]
  | succ n ih =>
    intro i msgs acc used trace h
    have hi := h i (Nat.le_refl i) (by omega)
    rcases hti : turns i with ds | ⟨ds, cs⟩ | e
    · rw [hti] at hi
      simp [ModelTurn.isActiveToolTurn] at hi
    · rw [hti] at hi
      simp only [ModelTurn.isActiveToolTurn] at hi
      rw [Bool.and_eq_true] at hi
      obtain ⟨hne, hok⟩ := hi
      simp only [loopGo, hti]
      have hcs : cs.isEmpty = false := by
        cases hval : cs.isEmpty
        · rfl
        · rw [hval] at hne
          exact absurd hne (by simp)
      simp only [hcs, Bool.false_eq_true, if_false]
      have h2 := runCalls_ok st tex artType cs hok
      have herr : (runCalls st tex artType cs).2.2.2 = none := by rw [h2]
      have hnames : (runCalls st tex artType cs).2.2.1 =
          cs.map (fun c => c.name) := by rw [h2]
      simp only [herr]
      have hrec := ih (i + 1)
        (msgs ++ [Msg.assistantToolCalls (String.join ds) cs] ++
          (runCalls st tex artType cs).2.1)
        (acc ++ String.join ds) (used ++ (runCalls st tex artType cs).2.2.1)
        (trace ++ [msgs])
        (fun j hj1 hj2 => h j (by omega) (by omega))
      rw [hrec, hnames]
      have hc : acc ++ String.join ds ++ turnsContents turns (i + 1) n =
          acc ++ turnsContents turns i (n + 1) := by
        rw [turnsContents, hti]
        show acc ++ String.join ds ++ turnsContents turns (i + 1) n =
          acc ++ (String.join ds ++ turnsContents turns (i + 1) n)
        rw [String.append_assoc]
      have hn : used ++ cs.map (fun c => c.name) ++ turnsNames turns (i + 1) n =
          used ++ turnsNames turns i (n + 1) := by
        rw [turnsNames, hti]
        show used ++ cs.map (fun c => c.name) ++ turnsNames turns (i + 1) n =
          used ++ (ModelTurn.callNames (.toolCalls ds cs) ++ turnsNames turns (i + 1) n)
        rw [ModelTurn.callNames, List.append_assoc]
      rw [hc, hn]
    · rw [hti] at hi
      simp [ModelTurn.isActiveToolTurn] at hi

/-- C3: in either delivery mode the loop performs at most
`max_tool_iterations + 1` model invocations, and when every response within
the budget is a well-formed tool-call turn (so no stop is reached), the run
ends with a `done` event carrying the accumulated content (the fixed
fallback sentence when nothing accumulated) and the accumulated tool names,
and emits no `error` event. -/
theorem C3_iteration_budget (st : Bool) (tex : String → String → String)
    (artType : String → Option String) (turns : Nat → ModelTurn)
    (maxIter : Nat) (initMsgs : List Msg) :
    (generate_response_with_tools st tex artType turns maxIter
        initMsgs).modelCalls ≤ maxIter + 1 ∧
    ((∀ j, j < maxIter → (turns j).isActiveToolTurn = true) →
      (∃ E, (generate_response_with_tools st tex artType turns maxIter
          initMsgs).events =
        E ++ [.done (if turnsContents turns 0 maxIter = "" then maxIterFallback
                     else turnsContents turns 0 maxIter)
                (turnsNames turns 0 maxIter)]) ∧
      ((generate_response_with_tools st tex artType turns maxIter
          initMsgs).events.all (fun e => !e.isErrorEvent)) = true) := by
  constructor
  · show (loopGo st tex artType turns maxIter 0 initMsgs "" [] []).modelCalls ≤ maxIter + 1
    exact Nat.le_succ_of_le (loopGo_modelCalls_le st tex artType turns maxIter 0 initMsgs "" [] [])
  · intro h
    have hout := loopGo_budget st tex artType turns maxIter 0 initMsgs "" [] []
      (fun j hj1 hj2 => h j (by omega))
    rw [String.empty_append] at hout
    obtain ⟨E, hE, hall⟩ := loopGo_shape st tex artType turns maxIter 0 initMsgs "" [] []
    rw [hout] at hE
    constructor
    · refine ⟨.thinking analyzingText :: E, ?_⟩
      show Event.thinking analyzingText ::
        (loopGo st tex artType turns maxIter 0 initMsgs "" [] []).events = _
      rw [hE]
      rfl
    · show ((Event.thinking analyzingText ::
        (loopGo st tex artType turns maxIter 0 initMsgs "" [] []).events).all
          (fun e => !e.isErrorEvent)) = true
      rw [hE]
      simp only [List.all_cons, List.all_append]
      rw [all_weaken (fun e he => by
        rw [Bool.and_eq_true] at he; exact he.2) hall]
      rfl

theorem C3_iteration_budget_witness :
    (generate_response_with_tools false cxTex cxArt cxTurnsBudget 2
        []).modelCalls ≤ 3 ∧
    (∃ E, (generate_response_with_tools false cxTex cxArt cxTurnsBudget 2
        []).events =
      E ++ [.done (if turnsContents cxTurnsBudget 0 2 = "" then maxIterFallback
                   else turnsContents cxTurnsBudget 0 2)
              (turnsNames cxTurnsBudget 0 2)]) ∧
    ((generate_response_with_tools false cxTex cxArt cxTurnsBudget 2
        []).events.all (fun e => !e.isErrorEvent)) = true :=
  ⟨(C3_iteration_budget false cxTex cxArt cxTurnsBudget 2 []).1,
   ((C3_iteration_budget false cxTex cxArt cxTurnsBudget 2 []).2
      (by decide)).1,
   ((C3_iteration_budget false cxTex cxArt cxTurnsBudget 2 []).2
      (by decide)).2⟩

/-- If a turn's tool loop does not abort, every call's arguments parsed. -/
lemma runCalls_none_ok (st : Bool) (tex : String → String → String)
    (artType : String → Option String) (cs : List ToolCallSpec)
    (h : (runCalls st tex artType cs).2.2.2 = none) :
    cs.all (fun c => c.argsErr.isNone) = true := by
  induction cs with
  | nil => rfl
  | cons c cs ih =>
    rw [runCalls] at h
    rcases hc : c.argsErr with _ | e
    · rw [hc] at h
      simp only [List.all_cons, Bool.and_eq_true]
      exact ⟨by simp [hc], ih h⟩
    · rw [hc] at h
      simp at h

/-- When no model response within the remaining budget raises and no call's
arguments fail to parse, the loop completes with a `done` outcome. -/
lemma loopGo_noRaise_done (st : Bool) (tex : String → String → String)
    (artType : String → Option String) (turns : Nat → ModelTurn) :
    ∀ fuel i msgs acc used trace,
      (∀ j, i ≤ j → j < i + fuel → (turns j).noRaise = true) →
      ∃ m t v, (loopGo st tex artType turns fuel i msgs acc used trace).outcome =
        .done m t v := by
  intro fuel
  induction fuel with
  | zero => intro i msgs acc used trace _; exact ⟨_, _, false, rfl⟩
  | succ n ih =>
    intro i msgs acc used trace h
    have hi := h i (Nat.le_refl i) (by omega)
    rcases hti : turns i with ds | ⟨ds, cs⟩ | e
    · exact ⟨acc ++ String.join ds, used, true, by simp only [loopGo, hti]⟩
    · rw [hti] at hi
      simp only [ModelTurn.noRaise] at hi
      simp only [loopGo, hti]
      by_cases hcs : cs.isEmpty
      · cases st
        · simp only [hcs, if_true, Bool.false_eq_true, if_false]
          exact ⟨_, _, true, rfl⟩
        · simp only [hcs, if_true]
          obtain ⟨m, t, v, hout⟩ := ih (i + 1) msgs acc used (trace ++ [msgs])
            (fun j hj1 hj2 => h j (by omega) (by omega))
          exact ⟨m, t, v, hout⟩
      · simp only [hcs, Bool.false_eq_true, if_false]
        have herr : (runCalls st tex artType cs).2.2.2 = none := by
          rw [runCalls_ok st tex artType cs hi]
        simp only [herr]
        obtain ⟨m, t, v, hout⟩ := ih (i + 1)
          (msgs ++ [Msg.assistantToolCalls (String.join ds) cs] ++
            (runCalls st tex artType cs).2.1)
          (acc ++ String.join ds) (used ++ (runCalls st tex artType cs).2.2.1)
          (trace ++ [msgs])
          (fun j hj1 hj2 => h j (by omega) (by omega))
        exact ⟨m, t, v, hout⟩
    · rw [hti] at hi
      simp [ModelTurn.noRaise] at hi

/-- C4 (amended): a failure inside a tool implementation is caught by
`execute_tool` and serialized into a JSON error payload returned as the
tool result, and as long as every model response is raise-free and every
call's arguments parse, the loop completes with a `done` outcome and never
emits an `error` event — regardless of how the tool handlers fail.  (A call
whose arguments fail to parse, by contrast, aborts the loop: see the
counterexample.) -/
theorem C4_tool_failure_isolation (st : Bool)
    (handlers : String → String → Except String String)
    (artType : String → Option String) (turns : Nat → ModelTurn)
    (maxIter : Nat) (initMsgs : List Msg)
    (hok : ∀ j, j < maxIter → (turns j).noRaise = true) :
    ((generate_response_with_tools st (execute_tool handlers) artType turns
        maxIter initMsgs).events.all (fun e => !e.isErrorEvent)) = true ∧
    (∃ m t v, (generate_response_with_tools st (execute_tool handlers) artType
        turns maxIter initMsgs).outcome = .done m t v) ∧
    (∀ nm args e, nm ∈ knownToolNames → handlers nm args = .error e →
      execute_tool handlers nm args =
        jsonErrorDump ("Error executing tool " ++ nm ++ ": " ++ e)) := by
  obtain ⟨m, t, v, hout⟩ := loopGo_noRaise_done st (execute_tool handlers)
    artType turns maxIter 0 initMsgs "" [] []
    (fun j hj1 hj2 => hok j (by omega))
  obtain ⟨E, hE, hall⟩ := loopGo_shape st (execute_tool handlers) artType turns
    maxIter 0 initMsgs "" [] []
  refine ⟨?_, ⟨m, t, v, hout⟩, ?_⟩
  · show ((Event.thinking analyzingText ::
      (loopGo st (execute_tool handlers) artType turns maxIter 0
        initMsgs "" [] []).events).all (fun e => !e.isErrorEvent)) = true
    rw [hE, hout]
    simp only [List.all_cons, List.all_append]
    rw [all_weaken (fun e he => by
      rw [Bool.and_eq_true] at he; exact he.2) hall]
    rfl
  · intro nm args e hmem herr
    simp only [execute_tool, if_pos hmem, herr]

theorem C4_tool_failure_isolation_witness :
    ((generate_response_with_tools true (execute_tool cxHandlersFail) cxArt
        cxTurns 5 []).events.all (fun e => !e.isErrorEvent)) = true ∧
    (∃ m t v, (generate_response_with_tools true (execute_tool cxHandlersFail)
        cxArt cxTurns 5 []).outcome = .done m t v) ∧
    execute_tool cxHandlersFail "tavily_web_search" "\x7b\x7d" =
      jsonErrorDump "Error executing tool tavily_web_search: boom" :=
  ⟨(C4_tool_failure_isolation true cxHandlersFail cxArt cxTurns 5 []
      (by decide)).1,
   (C4_tool_failure_isolation true cxHandlersFail cxArt cxTurns 5 []
      (by decide)).2.1,
   (C4_tool_failure_isolation true cxHandlersFail cxArt cxTurns 5 []
      (by decide)).2.2 "tavily_web_search" "\x7b\x7d" "boom" (by decide) rfl⟩

/-- C4 counterexample: a tool call whose arguments string fails to parse as
JSON is not converted into a tool-result payload — the `json.loads`
exception escapes to the generator's outer handler, which emits an `error`
event and terminates the loop. -/
theorem C4_args_failure_cx :
    (generate_response_with_tools false cxTex cxArt cxTurnsBadArgs 5
        []).events.getLast? =
      some (.error "Error: Expecting value: line 1 column 1 (char 0)") ∧
    ((generate_response_with_tools false cxTex cxArt cxTurnsBadArgs 5
        []).events.all (fun e => !e.isErrorEvent)) = false := by
  exact ⟨rfl, rfl⟩

/-! ## Facts about the aggregate drain on failed runs -/

/-- In aggregate mode a failed run emits neither `content` nor `done`
events: just the event prefix of the turns processed so far and the final
`error` event. -/
lemma loopGo_agg_failed_shape (tex : String → String → String)
    (artType : String → Option String) (turns : Nat → ModelTurn) :
    ∀ fuel i msgs acc used trace e,
      (loopGo false tex artType turns fuel i msgs acc used trace).outcome =
        .failed e →
      ∃ E, (loopGo false tex artType turns fuel i msgs acc used trace).events =
          E ++ [.error e] ∧
        (E.all (fun ev => !ev.isContentEvent && !ev.isDoneEvent)) = true := by
  intro fuel
  induction fuel with
  | zero => intro i msgs acc used trace e h; exact absurd h (by simp [loopGo])
  | succ n ih =>
    intro i msgs acc used trace e h
    rcases hti : turns i with ds | ⟨ds, cs⟩ | e'
    · simp only [loopGo, hti] at h
      exact absurd h (by simp)
    · simp only [loopGo, hti, Bool.false_eq_true, if_false, List.nil_append] at h ⊢
      by_cases hcs : cs.isEmpty
      · simp only [hcs, if_true] at h
        exact absurd h (by simp)
      · simp only [hcs, Bool.false_eq_true, if_false] at h ⊢
        rcases herr : (runCalls false tex artType cs).2.2.2 with _ | e2
        · simp only [herr] at h ⊢
          obtain ⟨E, hE, hall⟩ := ih (i + 1)
            (msgs ++ [Msg.assistantToolCalls (String.join ds) cs] ++
              (runCalls false tex artType cs).2.1)
            (acc ++ String.join ds) (used ++ (runCalls false tex artType cs).2.2.1)
            (trace ++ [msgs]) e h
          refine ⟨(runCalls false tex artType cs).1 ++ E, ?_, ?_⟩
          · rw [hE, ← List.append_assoc]
          · rw [List.all_append, hall,
              all_weaken (fun ev hev => by
                simp only [plainEvent, Bool.and_eq_true] at hev
                rw [Bool.and_eq_true]
                exact ⟨hev.1.1, hev.1.2⟩)
              (runCalls_event_kinds false tex artType cs)]
            rfl
        · simp only [herr] at h ⊢
          simp only [Outcome.failed.injEq] at h
          refine ⟨(runCalls false tex artType cs).1, ?_, ?_⟩
          · rw [h]
          · exact all_weaken (fun ev hev => by
              simp only [plainEvent, Bool.and_eq_true] at hev
              rw [Bool.and_eq_true]
              exact ⟨hev.1.1, hev.1.2⟩)
              (runCalls_event_kinds false tex artType cs)
    · simp only [loopGo, hti] at h ⊢
      simp only [Outcome.failed.injEq] at h
      exact ⟨[], by rw [← h]; rfl, rfl⟩

/-- Events that are neither `content` nor `done` leave the aggregate drain
state unchanged. -/
lemma aggregateDrain_skip (E : List Event)
    (hE : (E.all (fun ev => !ev.isContentEvent && !ev.isDoneEvent)) = true)
    (L : List Event) (fm : String) (tu : List String) :
    aggregateDrain (E ++ L) fm tu = aggregateDrain L fm tu := by
  induction E generalizing fm tu with
  | nil => rfl
  | cons ev E ih =>
    simp only [List.all_cons, Bool.and_eq_true] at hE
    obtain ⟨⟨h1, h2⟩, hrest⟩ := hE
    cases ev <;>
      simp_all [aggregateDrain, Event.isContentEvent, Event.isDoneEvent]

/-- C5 (amended): when the model call raises, the loop emits an `error`
event and terminates — but the aggregate wrapper
`process_chat_request_with_tools`, whose drain loop ignores `error` events,
still persists the exchange: the USER message and an ASSISTANT message with
empty content (risk classified over the empty text, no tools recorded) are
appended to the store. -/
theorem C5_model_failure (tex : String → String → String)
    (artType : String → Option String) (turns : Nat → ModelTurn)
    (maxIter : Nat) (db : Db) (sid pid : Option Nat)
    (message ctx : String) (initMsgs : List Msg) (now : Nat)
    (db0 : Db) (sess : DbSession) (e : String)
    (hsess : get_or_create_session db sid pid message now = (db0, .ok sess))
    (hfail : (generate_response_with_tools false tex artType turns maxIter
        initMsgs).outcome = .failed e) :
    (∃ E, (generate_response_with_tools false tex artType turns maxIter
        initMsgs).events = E ++ [.error e]) ∧
    process_chat_request_with_tools tex artType turns maxIter db sid pid
        message ctx initMsgs now =
      (save_chat_exchange_with_metadata db0 sess.id message ""
         (calculate_risk_assessment "" ctx).1 [],
       .ok { session_id := sess.id, message := "",
             risk_assessment := (calculate_risk_assessment "" ctx).1,
             should_see_doctor := (calculate_risk_assessment "" ctx).2,
             tools_used := [] }) ∧
    (save_chat_exchange_with_metadata db0 sess.id message ""
        (calculate_risk_assessment "" ctx).1 []).messages =
      db0.messages ++
        [{ session_id := sess.id, role := "USER", content := message,
           risk_assessment := none, tools_used := none },
         { session_id := sess.id, role := "ASSISTANT", content := "",
           risk_assessment := some (calculate_risk_assessment "" ctx).1,
           tools_used := some [] }] := by
  have hfail' : (loopGo false tex artType turns maxIter 0 initMsgs
      "" [] []).outcome = .failed e := hfail
  obtain ⟨E, hE, hall⟩ := loopGo_agg_failed_shape tex artType turns maxIter 0
    initMsgs "" [] [] e hfail'
  have hdrain : aggregateDrain (generate_response_with_tools false tex artType
      turns maxIter initMsgs).events "" [] = ("", []) := by
    show aggregateDrain (Event.thinking analyzingText ::
      (loopGo false tex artType turns maxIter 0 initMsgs "" [] []).events)
      "" [] = ("", [])
    rw [hE]
    show aggregateDrain (E ++ [Event.error e]) "" [] = ("", [])
    rw [aggregateDrain_skip E hall]
    rfl
  refine ⟨⟨Event.thinking analyzingText :: E, ?_⟩, ?_, rfl⟩
  · show Event.thinking analyzingText ::
      (loopGo false tex artType turns maxIter 0 initMsgs "" [] []).events = _
    rw [hE]
    rfl
  · simp only [process_chat_request_with_tools, hsess]
    rw [hdrain]

theorem C5_model_failure_witness :
    (∃ E, (generate_response_with_tools false cxTex cxArt cxTurnsRaise 5
        []).events = E ++ [.error ("Error: " ++ "APIConnectionError")]) ∧
    process_chat_request_with_tools cxTex cxArt cxTurnsRaise 5 cxDb (some 3)
        none "hi" "" [] 9 =
      (save_chat_exchange_with_metadata
         ((get_or_create_session cxDb (some 3) none "hi" 9).1) 3 "hi" ""
         (calculate_risk_assessment "" "").1 [],
       .ok { session_id := 3, message := "",
             risk_assessment := (calculate_risk_assessment "" "").1,
             should_see_doctor := (calculate_risk_assessment "" "").2,
             tools_used := [] }) := by
  have h := C5_model_failure cxTex cxArt cxTurnsRaise 5 cxDb (some 3) none
    "hi" "" [] 9 ((get_or_create_session cxDb (some 3) none "hi" 9).1)
    { id := 3, patient_id := 1, title := "t", status := "ACTIVE",
      created_at := 0, updated_at := 9, last_message_at := 9 }
    ("Error: " ++ "APIConnectionError") rfl rfl
  exact ⟨h.1, h.2.1⟩

/-- C5 counterexample: with a model that raises on every call, the stored
message list of the session is *not* unchanged — the wrapper appends a USER
and an (empty) ASSISTANT message despite the error event. -/
theorem C5_model_failure_cx :
    (process_chat_request_with_tools cxTex cxArt cxTurnsRaise 5 cxDb (some 3)
        none "hi" "" [] 9).1.messages ≠ cxDb.messages := by
  decide

/-! ## Facts about the recorded tool names -/

lemma resNamesOf_append (A B : List Event) :
    resNamesOf (A ++ B) = resNamesOf A ++ resNamesOf B := by
  unfold resNamesOf
  exact List.filterMap_append _ _ _

lemma resNamesOf_map_content (l : List String) :
    resNamesOf (l.map Event.content) = [] := by
  induction l with
  | nil => rfl
  | cons d l ih => simp_all [resNamesOf]

/-- A completed run's `done` event reports exactly the tool names already
recorded plus one name per `tool_result` event emitted, in order. -/
lemma loopGo_tools_used (st : Bool) (tex : String → String → String)
    (artType : String → Option String) (turns : Nat → ModelTurn) :
    ∀ fuel i msgs acc used trace m t v,
      (loopGo st tex artType turns fuel i msgs acc used trace).outcome =
        .done m t v →
      t = used ++
        resNamesOf (loopGo st tex artType turns fuel i msgs acc used trace).events := by
  intro fuel
  induction fuel with
  | zero =>
    intro i msgs acc used trace m t v h
    simp only [loopGo, Outcome.done.injEq] at h
    show t = used ++ resNamesOf [Event.thinking synthesizingText, Event.done _ used]
    rw [show resNamesOf [Event.thinking synthesizingText, Event.done
      (if acc = "" then maxIterFallback else acc) used] = [] from rfl]
    rw [List.append_nil]
    exact h.2.1.symm
  | succ n ih =>
    intro i msgs acc used trace m t v h
    rcases hti : turns i with ds | ⟨ds, cs⟩ | e
    · simp only [loopGo, hti] at h ⊢
      cases st
      · simp only [Outcome.done.injEq] at h
        show t = used ++ resNamesOf [Event.content (String.join ds),
          Event.done (acc ++ String.join ds) used]
        rw [show resNamesOf [Event.content (String.join ds),
          Event.done (acc ++ String.join ds) used] = [] from rfl, List.append_nil]
        exact h.2.1.symm
      · simp only [Outcome.done.injEq] at h
        show t = used ++ resNamesOf ((ds.filter (fun d => d ≠ "")).map
          Event.content ++ [Event.done (acc ++ String.join ds) used])
        rw [resNamesOf_append, resNamesOf_map_content,
          show resNamesOf [Event.done (acc ++ String.join ds) used] = [] from rfl]
        rw [List.append_nil, List.append_nil]
        exact h.2.1.symm
    · simp only [loopGo, hti] at h ⊢
      by_cases hcs : cs.isEmpty
      · simp only [hcs] at h ⊢
        cases st
        · have h2 : Outcome.done (acc ++ String.join ds) used true =
              Outcome.done m t v := h
          simp only [Outcome.done.injEq] at h2
          show t = used ++ resNamesOf [Event.content (String.join ds),
            Event.done (acc ++ String.join ds) used]
          rw [show resNamesOf [Event.content (String.join ds),
            Event.done (acc ++ String.join ds) used] = [] from rfl, List.append_nil]
          exact h2.2.1.symm
        · show t = used ++ resNamesOf ((ds.filter (fun d => d ≠ "")).map
            Event.content ++
            (loopGo true tex artType turns n (i + 1) msgs acc used
              (trace ++ [msgs])).events)
          rw [resNamesOf_append, resNamesOf_map_content, List.nil_append]
          exact ih (i + 1) msgs acc used (trace ++ [msgs]) m t v h
      · simp only [hcs, Bool.false_eq_true, if_false] at h ⊢
        rcases herr : (runCalls st tex artType cs).2.2.2 with _ | e2
        · simp only [herr] at h ⊢
          have hok := runCalls_none_ok st tex artType cs herr
          have hrec := ih (i + 1)
            (msgs ++ [Msg.assistantToolCalls (String.join ds) cs] ++
              (runCalls st tex artType cs).2.1)
            (acc ++ String.join ds) (used ++ (runCalls st tex artType cs).2.2.1)
            (trace ++ [msgs]) m t v h
          show t = used ++ resNamesOf ((if st then (ds.filter (fun d => d ≠ "")).map
              Event.content else []) ++ (runCalls st tex artType cs).1 ++
              (loopGo st tex artType turns n (i + 1)
                (msgs ++ [Msg.assistantToolCalls (String.join ds) cs] ++
                  (runCalls st tex artType cs).2.1)
                (acc ++ String.join ds)
                (used ++ (runCalls st tex artType cs).2.2.1)
                (trace ++ [msgs])).events)
          have hq : resNamesOf (runCalls st tex artType cs).1 =
              (runCalls st tex artType cs).2.2.1 := by
            rw [runCalls_resNames st tex artType cs hok,
              show (runCalls st tex artType cs).2.2.1 = cs.map (fun c => c.name)
                from by rw [runCalls_ok st tex artType cs hok]]
          have hce : resNamesOf (if st then (ds.filter (fun d => d ≠ "")).map
              Event.content else []) = [] := by
            cases st
            · rfl
            · show resNamesOf ((ds.filter (fun d => d ≠ "")).map Event.content) = []
              rw [resNamesOf_map_content]
          rw [resNamesOf_append, resNamesOf_append, hce, List.nil_append, hq,
            ← List.append_assoc]
          exact hrec
        · simp only [herr] at h
          exact absurd h (by simp)
    · simp only [loopGo, hti] at h
      exact absurd h (by simp)

/-- After any event prefix, a final `done` event determines the aggregate
drain's result. -/
lemma aggregateDrain_last_done (m : String) (t : List String) :
    ∀ E fm tu, aggregateDrain (E ++ [Event.done m t]) fm tu = (m, t) := by
  intro E
  induction E with
  | nil => intro fm tu; rfl
  | cons ev E ih => intro fm tu; cases ev <;> simp [aggregateDrain, ih]

/-- C8 (amended): the `tools_used` metadata persisted with the ASSISTANT
message is the list of `tool_result` events' tool names in emission order —
one entry per tool *invocation*, so a name appears exactly when a tool of
that name was invoked, but the list is not deduplicated (see the
counterexample for a stored duplicate). -/
theorem C8_tools_used_metadata (tex : String → String → String)
    (artType : String → Option String) (turns : Nat → ModelTurn)
    (maxIter : Nat) (db : Db) (sid pid : Option Nat)
    (message ctx : String) (initMsgs : List Msg) (now : Nat)
    (db0 : Db) (sess : DbSession) (m : String) (t : List String) (v : Bool)
    (hsess : get_or_create_session db sid pid message now = (db0, .ok sess))
    (hdone : (generate_response_with_tools false tex artType turns maxIter
        initMsgs).outcome = .done m t v) :
    t = resNamesOf (generate_response_with_tools false tex artType turns
        maxIter initMsgs).events ∧
    process_chat_request_with_tools tex artType turns maxIter db sid pid
        message ctx initMsgs now =
      (save_chat_exchange_with_metadata db0 sess.id message m
         (calculate_risk_assessment m ctx).1 t,
       .ok { session_id := sess.id, message := m,
             risk_assessment := (calculate_risk_assessment m ctx).1,
             should_see_doctor := (calculate_risk_assessment m ctx).2,
             tools_used := t }) ∧
    (save_chat_exchange_with_metadata db0 sess.id message m
        (calculate_risk_assessment m ctx).1 t).messages.getLast? =
      some { session_id := sess.id, role := "ASSISTANT", content := m,
             risk_assessment := some (calculate_risk_assessment m ctx).1,
             tools_used := some t } := by
  have hdone' : (loopGo false tex artType turns maxIter 0 initMsgs
      "" [] []).outcome = .done m t v := hdone
  have ht := loopGo_tools_used false tex artType turns maxIter 0 initMsgs
    "" [] [] m t v hdone'
  rw [List.nil_append] at ht
  obtain ⟨E, hE, -⟩ := loopGo_shape false tex artType turns maxIter 0
    initMsgs "" [] []
  rw [hdone'] at hE
  have hdrain : aggregateDrain (generate_response_with_tools false tex artType
      turns maxIter initMsgs).events "" [] = (m, t) := by
    show aggregateDrain (Event.thinking analyzingText ::
      (loopGo false tex artType turns maxIter 0 initMsgs "" [] []).events)
      "" [] = (m, t)
    rw [hE]
    show aggregateDrain (E ++ [Event.done m t]) "" [] = (m, t)
    exact aggregateDrain_last_done m t E "" []
  refine ⟨?_, ?_, ?_⟩
  · show t = resNamesOf (Event.thinking analyzingText ::
      (loopGo false tex artType turns maxIter 0 initMsgs "" [] []).events)
    exact ht
  · simp only [process_chat_request_with_tools, hsess]
    rw [hdrain]
  · show (db0.messages ++
      ([{ session_id := sess.id, role := "USER", content := message,
          risk_assessment := none, tools_used := none },
        { session_id := sess.id, role := "ASSISTANT", content := m,
          risk_assessment := some (calculate_risk_assessment m ctx).1,
          tools_used := some t }] : List DbMessage)).getLast? = _
    rw [show db0.messages ++
      [({ session_id := sess.id, role := "USER", content := message,
          risk_assessment := none, tools_used := none } : DbMessage),
       { session_id := sess.id, role := "ASSISTANT", content := m,
         risk_assessment := some (calculate_risk_assessment m ctx).1,
         tools_used := some t }] =
      (db0.messages ++
        [{ session_id := sess.id, role := "USER", content := message,
           risk_assessment := none, tools_used := none }]) ++
      [{ session_id := sess.id, role := "ASSISTANT", content := m,
         risk_assessment := some (calculate_risk_assessment m ctx).1,
         tools_used := some t }] from by rw [List.append_assoc]; rfl]
    exact List.getLast?_concat _

theorem C8_tools_used_metadata_witness :
    (["tavily_web_search"] : List String) =
      resNamesOf (generate_response_with_tools false cxTex cxArt cxTurns 5
        []).events ∧
    (save_chat_exchange_with_metadata ((get_or_create_session cxDb (some 3)
        none "hi" 9).1) 3 "hi" "Let me check.Answer done."
        (calculate_risk_assessment "Let me check.Answer done." "").1
        ["tavily_web_search"]).messages.getLast? =
      some { session_id := 3, role := "ASSISTANT",
             content := "Let me check.Answer done.",
             risk_assessment :=
               some (calculate_risk_assessment "Let me check.Answer done." "").1,
             tools_used := some ["tavily_web_search"] } := by
  have h := C8_tools_used_metadata cxTex cxArt cxTurns 5 cxDb (some 3) none
    "hi" "" [] 9 ((get_or_create_session cxDb (some 3) none "hi" 9).1)
    { id := 3, patient_id := 1, title := "t", status := "ACTIVE",
      created_at := 0, updated_at := 9, last_message_at := 9 }
    "Let me check.Answer done." ["tavily_web_search"] true rfl rfl
  exact ⟨h.1, h.2.2⟩

/-- C8 counterexample: a turn that invokes the same tool twice stores
`tools_used` with that name twice — the recorded list is not a set of
distinct names. -/
theorem C8_duplicates_cx :
    ((process_chat_request_with_tools cxTex cxArt cxTurnsDup 5 cxDb (some 3)
        none "hi" "" [] 9).1.messages.getLast?.map
          (fun msg => msg.tools_used)) =
      some (some ["tavily_web_search", "tavily_web_search"]) ∧
    ¬ (["tavily_web_search", "tavily_web_search"] : List String).Nodup := by
  exact ⟨by decide, by decide⟩

/-! ## Content accounting for the mode-equivalence claim -/

lemma ModelTurn.wf_noRaise (mt : ModelTurn) (h : mt.wf = true) :
    mt.noRaise = true := by
  cases mt <;> simp_all [ModelTurn.wf, ModelTurn.noRaise]

lemma string_join_append (a b : List String) :
    String.join (a ++ b) = String.join a ++ String.join b := by
  rw [String.join_eq, String.join_eq, String.join_eq, List.map_append,
    List.flatten_append]
  rfl

lemma contentConcatOf_append (A B : List Event) :
    contentConcatOf (A ++ B) = contentConcatOf A ++ contentConcatOf B := by
  unfold contentConcatOf
  rw [List.filterMap_append, string_join_append]

lemma contentConcatOf_cons_content (d : String) (l : List Event) :
    contentConcatOf (Event.content d :: l) = d ++ contentConcatOf l := by
  show String.join (d :: List.filterMap _ l) = _
  rw [string_join_cons]
  rfl

lemma contentConcatOf_map_content (l : List String) :
    contentConcatOf (l.map Event.content) = String.join l := by
  induction l with
  | nil => rfl
  | cons d l ih =>
    rw [List.map_cons, contentConcatOf_cons_content, ih, string_join_cons]

lemma contentConcatOf_no_content (l : List Event)
    (h : (l.all (fun e => !e.isContentEvent)) = true) :
    contentConcatOf l = "" := by
  induction l with
  | nil => rfl
  | cons e l ih =>
    simp only [List.all_cons, Bool.and_eq_true] at h
    cases e
    case content d => simp [Event.isContentEvent] at h
    all_goals
      show contentConcatOf l = ""
      exact ih h.2

/-- Under well-formed model responses, both delivery modes drive the loop
through the same sequence of states and reach the same outcome. -/
lemma loopGo_outcome_mode_eq (tex : String → String → String)
    (artType : String → Option String) (turns : Nat → ModelTurn) :
    ∀ fuel i msgs acc used trace,
      (∀ j, i ≤ j → j < i + fuel → (turns j).wf = true) →
      (loopGo true tex artType turns fuel i msgs acc used trace).outcome =
        (loopGo false tex artType turns fuel i msgs acc used trace).outcome := by
  intro fuel
  induction fuel with
  | zero => intro i msgs acc used trace _; rfl
  | succ n ih =>
    intro i msgs acc used trace h
    have hi := h i (Nat.le_refl i) (by omega)
    rcases hti : turns i with ds | ⟨ds, cs⟩ | e
    · simp only [loopGo, hti]
    · rw [hti] at hi
      simp only [ModelTurn.wf] at hi
      rw [Bool.and_eq_true] at hi
      obtain ⟨hne, hok⟩ := hi
      have hcs : cs.isEmpty = false := by
        cases hval : cs.isEmpty
        · rfl
        · rw [hval] at hne
          exact absurd hne (by simp)
      have hT := runCalls_ok true tex artType cs hok
      have hF := runCalls_ok false tex artType cs hok
      have herrT : (runCalls true tex artType cs).2.2.2 = none := by rw [hT]
      have herrF : (runCalls false tex artType cs).2.2.2 = none := by rw [hF]
      simp only [loopGo, hti, hcs, Bool.false_eq_true, if_false, herrT, herrF]
      rw [show (runCalls true tex artType cs).2.1 =
          cs.map (fun c => Msg.tool c.id (tex c.name c.args)) from by rw [hT],
        show (runCalls false tex artType cs).2.1 =
          cs.map (fun c => Msg.tool c.id (tex c.name c.args)) from by rw [hF],
        show (runCalls true tex artType cs).2.2.1 =
          cs.map (fun c => c.name) from by rw [hT],
        show (runCalls false tex artType cs).2.2.1 =
          cs.map (fun c => c.name) from by rw [hF]]
      exact ih (i + 1) _ _ _ _ (fun j hj1 hj2 => h j (by omega) (by omega))
    · simp only [loopGo, hti]

/-- In streaming mode (under well-formed responses) the `done` message is
the initial accumulator followed by the concatenation of all emitted
`content` deltas — except that a budget-exhausted run with nothing
accumulated reports the fallback sentence instead. -/
lemma loopGo_stream_msg (tex : String → String → String)
    (artType : String → Option String) (turns : Nat → ModelTurn) :
    ∀ fuel i msgs acc used trace m t v,
      (∀ j, i ≤ j → j < i + fuel → (turns j).wf = true) →
      (loopGo true tex artType turns fuel i msgs acc used trace).outcome =
        .done m t v →
      m = if v = true then
            acc ++ contentConcatOf (loopGo true tex artType turns fuel i msgs
              acc used trace).events
          else if acc ++ contentConcatOf (loopGo true tex artType turns fuel i
              msgs acc used trace).events = "" then maxIterFallback
          else acc ++ contentConcatOf (loopGo true tex artType turns fuel i
              msgs acc used trace).events := by
  intro fuel
  induction fuel with
  | zero =>
    intro i msgs acc used trace m t v hwf h
    simp only [loopGo, Outcome.done.injEq] at h
    obtain ⟨h1, h2, h3⟩ := h
    have hjoin : contentConcatOf (loopGo true tex artType turns 0 i msgs acc used
        trace).events = "" := rfl
    rw [hjoin, String.append_empty, ← h3, if_neg (by simp)]
    exact h1.symm
  | succ n ih =>
    intro i msgs acc used trace m t v hwf h
    have hi := hwf i (Nat.le_refl i) (by omega)
    rcases hti : turns i with ds | ⟨ds, cs⟩ | e
    · rw [hti] at hi
      have h' : Outcome.done (acc ++ String.join ds) used true =
          Outcome.done m t v := by
        rw [← h]
        simp only [loopGo, hti]
      simp only [Outcome.done.injEq] at h'
      obtain ⟨h1, h2, h3⟩ := h'
      have hev : (loopGo true tex artType turns (n + 1) i msgs acc used
          trace).events = (ds.filter (fun d => d ≠ "")).map Event.content ++
          [Event.done (acc ++ String.join ds) used] := by
        simp [loopGo, hti]
      have hjoin : contentConcatOf ((ds.filter (fun d => d ≠ "")).map
          Event.content ++ [Event.done (acc ++ String.join ds) used]) =
          String.join ds := by
        rw [contentConcatOf_append, contentConcatOf_map_content,
          string_join_filter_ne]
        show String.join ds ++ "" = _
        rw [String.append_empty]
      rw [hev, hjoin, ← h3, if_pos rfl]
      exact h1.symm
    · rw [hti] at hi
      simp only [ModelTurn.wf] at hi
      rw [Bool.and_eq_true] at hi
      obtain ⟨hne, hok⟩ := hi
      have hcs : cs.isEmpty = false := by
        cases hval : cs.isEmpty
        · rfl
        · rw [hval] at hne
          exact absurd hne (by simp)
      have hT := runCalls_ok true tex artType cs hok
      have herrT : (runCalls true tex artType cs).2.2.2 = none := by rw [hT]
      simp only [loopGo, hti, hcs, Bool.false_eq_true, if_false, herrT] at h
      have hm := ih (i + 1)
        (msgs ++ [Msg.assistantToolCalls (String.join ds) cs] ++
          (runCalls true tex artType cs).2.1)
        (acc ++ String.join ds) (used ++ (runCalls true tex artType cs).2.2.1)
        (trace ++ [msgs]) m t v
        (fun j hj1 hj2 => hwf j (by omega) (by omega)) h
      have hev : (loopGo true tex artType turns (n + 1) i msgs acc used
          trace).events = (ds.filter (fun d => d ≠ "")).map Event.content ++
          ((runCalls true tex artType cs).1 ++
            (loopGo true tex artType turns n (i + 1)
              (msgs ++ [Msg.assistantToolCalls (String.join ds) cs] ++
                (runCalls true tex artType cs).2.1)
              (acc ++ String.join ds)
              (used ++ (runCalls true tex artType cs).2.2.1)
              (trace ++ [msgs])).events) := by
        simp [loopGo, hti, hcs, herrT, List.append_assoc]
      have hjoin : contentConcatOf ((ds.filter (fun d => d ≠ "")).map
          Event.content ++ ((runCalls true tex artType cs).1 ++
            (loopGo true tex artType turns n (i + 1)
              (msgs ++ [Msg.assistantToolCalls (String.join ds) cs] ++
                (runCalls true tex artType cs).2.1)
              (acc ++ String.join ds)
              (used ++ (runCalls true tex artType cs).2.2.1)
              (trace ++ [msgs])).events)) =
          String.join ds ++ contentConcatOf (loopGo true tex artType turns n
            (i + 1)
            (msgs ++ [Msg.assistantToolCalls (String.join ds) cs] ++
              (runCalls true tex artType cs).2.1)
            (acc ++ String.join ds)
            (used ++ (runCalls true tex artType cs).2.2.1)
            (trace ++ [msgs])).events := by
        rw [contentConcatOf_append, contentConcatOf_append,
          contentConcatOf_map_content, string_join_filter_ne,
          contentConcatOf_no_content (runCalls true tex artType cs).1
            (all_weaken (fun e he => by
              simp only [plainEvent, Bool.and_eq_true] at he
              exact he.1.1)
              (runCalls_event_kinds true tex artType cs)),
          String.empty_append]
      rw [hev, hjoin, ← String.append_assoc]
      exact hm
    · rw [hti] at hi
      simp [ModelTurn.wf] at hi

/-- The streaming relay, fed any done-free prefix followed by a `done`
event, persists the concatenated content deltas and the done event's tool
names. -/
lemma streamingDrain_done (ctx : String) :
    ∀ E, (E.all (fun e => !e.isDoneEvent)) = true →
      ∀ m t rest acc tu,
        streamingDrain ctx (E ++ Event.done m t :: rest) acc tu =
          some { content := acc ++ contentConcatOf E,
                 risk_assessment :=
                   (calculate_risk_assessment (acc ++ contentConcatOf E) ctx).1,
                 should_see_doctor :=
                   (calculate_risk_assessment (acc ++ contentConcatOf E) ctx).2,
                 tools_used := t } := by
  intro E
  induction E with
  | nil =>
    intro _ m t rest acc tu
    show some _ = _
    rw [show contentConcatOf [] = "" from rfl, String.append_empty]
  | cons e E ih =>
    intro hE m t rest acc tu
    simp only [List.all_cons, Bool.and_eq_true] at hE
    cases e
    case done m' t' => simp [Event.isDoneEvent] at hE
    case content d =>
      show streamingDrain ctx (E ++ Event.done m t :: rest) (acc ++ d) tu = _
      rw [ih hE.2 m t rest (acc ++ d) tu, contentConcatOf_cons_content,
        String.append_assoc]
    case tool_result n i res s =>
      show streamingDrain ctx (E ++ Event.done m t :: rest) acc (tu ++ [n]) = _
      rw [ih hE.2 m t rest acc (tu ++ [n])]
      rfl
    case thinking d =>
      show streamingDrain ctx (E ++ Event.done m t :: rest) acc tu = _
      rw [ih hE.2 m t rest acc tu]
      rfl
    case tool_call n a i =>
      show streamingDrain ctx (E ++ Event.done m t :: rest) acc tu = _
      rw [ih hE.2 m t rest acc tu]
      rfl
    case error d =>
      show streamingDrain ctx (E ++ Event.done m t :: rest) acc tu = _
      rw [ih hE.2 m t rest acc tu]
      rfl

/-- C2 (amended): for well-formed model responses (stops or nonempty
tool-call turns with parseable arguments), whenever the streaming run ends
via a model stop — or accumulated any content at all — the streaming
adapter persists exactly the content and risk classification that the
aggregate adapter computes, with the same tools list.  (When the iteration
budget is exhausted with no accumulated content the two modes diverge: see
the counterexample.) -/
theorem C2_mode_equivalence (tex : String → String → String)
    (artType : String → Option String) (turns : Nat → ModelTurn)
    (maxIter : Nat) (initMsgs : List Msg) (ctx : String)
    (hwf : ∀ j, j < maxIter → (turns j).wf = true)
    (hnf : (generate_response_with_tools true tex artType turns maxIter
        initMsgs).outcome.viaStopFlag = true ∨
      contentConcatOf (generate_response_with_tools true tex artType turns
        maxIter initMsgs).events ≠ "") :
    ∃ saved : StreamSaved,
      process_openai_chat_request_streaming tex artType turns maxIter initMsgs
        ctx = some saved ∧
      process_openai_chat_request tex artType turns maxIter initMsgs ctx =
        (saved.content, saved.risk_assessment, saved.should_see_doctor,
         saved.tools_used) := by
  have hwf' : ∀ j, 0 ≤ j → j < 0 + maxIter → (turns j).wf = true :=
    fun j _ hj => hwf j (by omega)
  obtain ⟨m, t, v, houtT⟩ := loopGo_noRaise_done true tex artType turns maxIter
    0 initMsgs "" [] []
    (fun j h1 h2 => ModelTurn.wf_noRaise _ (hwf' j h1 h2))
  have houtF : (loopGo false tex artType turns maxIter 0 initMsgs
      "" [] []).outcome = .done m t v := by
    rw [← loopGo_outcome_mode_eq tex artType turns maxIter 0 initMsgs "" [] []
      hwf']
    exact houtT
  obtain ⟨ET, hET, hallT⟩ := loopGo_shape true tex artType turns maxIter 0
    initMsgs "" [] []
  obtain ⟨EF, hEF, hallF⟩ := loopGo_shape false tex artType turns maxIter 0
    initMsgs "" [] []
  rw [houtT] at hET
  rw [houtF] at hEF
  have hET' : (loopGo true tex artType turns maxIter 0 initMsgs "" []
      []).events = ET ++ [Event.done m t] := hET
  have hEF' : (loopGo false tex artType turns maxIter 0 initMsgs "" []
      []).events = EF ++ [Event.done m t] := hEF
  have hm := loopGo_stream_msg tex artType turns maxIter 0 initMsgs "" [] []
    m t v hwf' houtT
  have hmval : m = contentConcatOf (loopGo true tex artType turns maxIter 0
      initMsgs "" [] []).events := by
    rcases hnf with hv | hne
    · have hv' : v = true := by
        have hq : Outcome.viaStopFlag (Outcome.done m t v) = true := by
          rw [← houtT]
          exact hv
        simpa [Outcome.viaStopFlag] using hq
      rw [hv', if_pos rfl, String.empty_append] at hm
      exact hm
    · have hne' : contentConcatOf (loopGo true tex artType turns maxIter 0
          initMsgs "" [] []).events ≠ "" := hne
      cases hv : v
      · rw [hv, if_neg (by simp), String.empty_append, if_neg hne'] at hm
        exact hm
      · rw [hv, if_pos rfl, String.empty_append] at hm
        exact hm
  have hsig : contentConcatOf (loopGo true tex artType turns maxIter 0
      initMsgs "" [] []).events = contentConcatOf ET := by
    rw [hET', contentConcatOf_append]
    show contentConcatOf ET ++ "" = _
    rw [String.append_empty]
  have hstream : process_openai_chat_request_streaming tex artType turns
      maxIter initMsgs ctx =
      some { content := contentConcatOf ET,
             risk_assessment :=
               (calculate_risk_assessment (contentConcatOf ET) ctx).1,
             should_see_doctor :=
               (calculate_risk_assessment (contentConcatOf ET) ctx).2,
             tools_used := t } := by
    have h1 : (ET.all (fun e => !e.isDoneEvent)) = true :=
      all_weaken (fun e he => by
        rw [Bool.and_eq_true] at he
        exact he.1) hallT
    have hAll : ((Event.thinking analyzingText :: ET).all
        (fun e => !e.isDoneEvent)) = true := by
      rw [List.all_cons, h1]
      rfl
    show streamingDrain ctx (Event.thinking analyzingText ::
      (loopGo true tex artType turns maxIter 0 initMsgs "" [] []).events)
      "" [] = _
    rw [hET']
    show streamingDrain ctx ((Event.thinking analyzingText :: ET) ++
      Event.done m t :: []) "" [] = _
    rw [streamingDrain_done ctx (Event.thinking analyzingText :: ET) hAll
      m t [] "" []]
    rw [show ("" : String) ++ contentConcatOf (Event.thinking analyzingText ::
      ET) = contentConcatOf ET from by rw [String.empty_append]; rfl]
  have hagg : process_openai_chat_request tex artType turns maxIter initMsgs
      ctx = (m, (calculate_risk_assessment m ctx).1,
        (calculate_risk_assessment m ctx).2, t) := by
    have hdrain : aggregateDrain (generate_response_with_tools false tex
        artType turns maxIter initMsgs).events "" [] = (m, t) := by
      show aggregateDrain (Event.thinking analyzingText ::
        (loopGo false tex artType turns maxIter 0 initMsgs "" [] []).events)
        "" [] = (m, t)
      rw [hEF']
      show aggregateDrain ((Event.thinking analyzingText :: EF) ++
        [Event.done m t]) "" [] = (m, t)
      exact aggregateDrain_last_done m t _ "" []
    simp only [process_openai_chat_request]
    rw [hdrain]
  refine ⟨_, hstream, ?_⟩
  rw [hagg, hmval, hsig]

theorem C2_mode_equivalence_witness :
    process_openai_chat_request_streaming cxTex cxArt cxTurns 5 [] "" =
      some { content := "Let me check.Answer done.", risk_assessment := "LOW",
             should_see_doctor := false, tools_used := ["tavily_web_search"] } ∧
    process_openai_chat_request cxTex cxArt cxTurns 5 [] "" =
      ("Let me check.Answer done.", "LOW", false, ["tavily_web_search"]) := by
  obtain ⟨saved, h1, h2⟩ := C2_mode_equivalence cxTex cxArt cxTurns 5 [] ""
    (by decide) (Or.inl (by decide))
  have hlit : process_openai_chat_request_streaming cxTex cxArt cxTurns 5 []
      "" = some ({ content := "Let me check.Answer done.",
                   risk_assessment := "LOW", should_see_doctor := false,
                   tools_used := ["tavily_web_search"] } : StreamSaved) := by
    decide
  have hs : saved = ({ content := "Let me check.Answer done.",
                       risk_assessment := "LOW", should_see_doctor := false,
                       tools_used := ["tavily_web_search"] } : StreamSaved) :=
    Option.some.inj (h1.symm.trans hlit)
  exact ⟨hlit, by rw [h2, hs]⟩

/-- C2 counterexample: five well-formed tool-call turns with no content
exhaust the budget; the aggregate adapter then persists the fixed fallback
sentence while the streaming adapter persists the empty string — the same
model and tool behavior, different persisted ASSISTANT content. -/
theorem C2_mode_divergence_cx :
    process_openai_chat_request_streaming cxTex cxArt cxTurnsBudget 5 [] "" =
      some { content := "", risk_assessment := "LOW",
             should_see_doctor := false,
             tools_used := ["tavily_web_search", "tavily_web_search",
               "tavily_web_search", "tavily_web_search", "tavily_web_search"] } ∧
    (process_openai_chat_request cxTex cxArt cxTurnsBudget 5 [] "").1 =
      maxIterFallback ∧
    (process_openai_chat_request cxTex cxArt cxTurnsBudget 5 [] "").1 ≠ "" := by
  exact ⟨by decide, by decide, by decide⟩

/-! ## Pairing of tool_call / tool_result events (claim C1) -/

lemma callIdsOf_append (A B : List Event) :
    callIdsOf (A ++ B) = callIdsOf A ++ callIdsOf B := by
  unfold callIdsOf
  exact List.filterMap_append _ _ _

lemma resIdsOf_append (A B : List Event) :
    resIdsOf (A ++ B) = resIdsOf A ++ resIdsOf B := by
  unfold resIdsOf
  exact List.filterMap_append _ _ _

lemma nontool_ids (X : List Event)
    (hX : (X.all (fun e => !e.isToolEvent)) = true) :
    callIdsOf X = [] ∧ resIdsOf X = [] := by
  induction X with
  | nil => exact ⟨rfl, rfl⟩
  | cons e X ih =>
    simp only [List.all_cons, Bool.and_eq_true] at hX
    obtain ⟨he, hrest⟩ := hX
    obtain ⟨ih1, ih2⟩ := ih hrest
    cases e
    case tool_call n a i => simp [Event.isToolEvent] at he
    case tool_result n i r s => simp [Event.isToolEvent] at he
    all_goals exact ⟨ih1, ih2⟩

lemma nontool_countP_call (X : List Event)
    (hX : (X.all (fun e => !e.isToolEvent)) = true) (i : String) :
    X.countP (isCallEventWith i) = 0 := by
  induction X with
  | nil => rfl
  | cons e X ih =>
    simp only [List.all_cons, Bool.and_eq_true] at hX
    obtain ⟨he, hrest⟩ := hX
    rw [List.countP_cons]
    cases e
    case tool_call n a j => simp [Event.isToolEvent] at he
    case tool_result n j r s => simp [Event.isToolEvent] at he
    all_goals simp [isCallEventWith, ih hrest]

lemma pairShape_nontool_prepend (X L : List Event) (ids : List String)
    (hX : (X.all (fun e => !e.isToolEvent)) = true) (h : PairShape ids L) :
    PairShape ids (X ++ L) := by
  cases h with
  | nil _ hY =>
    exact PairShape.nil (X ++ L) (by rw [List.all_append, hX, hY]; rfl)
  | cons i nm args nm2 res s Y ids rest hY hrest =>
    rw [← List.append_assoc]
    exact PairShape.cons i nm args nm2 res s (X ++ Y) ids rest
      (by rw [List.all_append, hX, hY]; rfl) hrest

lemma pairShape_append (ids1 ids2 : List String) (A B : List Event)
    (h1 : PairShape ids1 A) (h2 : PairShape ids2 B) :
    PairShape (ids1 ++ ids2) (A ++ B) := by
  induction h1 with
  | nil X hX => exact pairShape_nontool_prepend X B ids2 hX h2
  | cons i nm args nm2 res s X ids rest hX hrest ih =>
    rw [List.append_assoc]
    exact PairShape.cons i nm args nm2 res s X (ids ++ ids2) (rest ++ B) hX ih

lemma pairShape_ids (ids : List String) (L : List Event)
    (h : PairShape ids L) : callIdsOf L = ids ∧ resIdsOf L = ids := by
  induction h with
  | nil X hX => exact nontool_ids X hX
  | cons i nm args nm2 res s X ids rest hX hrest ih =>
    obtain ⟨hX1, hX2⟩ := nontool_ids X hX
    constructor
    · rw [callIdsOf_append, hX1, List.nil_append,
        show callIdsOf (Event.tool_call nm args i ::
          Event.tool_result nm2 i res s :: rest) = i :: callIdsOf rest from rfl,
        ih.1]
    · rw [resIdsOf_append, hX2, List.nil_append,
        show resIdsOf (Event.tool_call nm args i ::
          Event.tool_result nm2 i res s :: rest) = i :: resIdsOf rest from rfl,
        ih.2]

lemma pairShape_res_mem (ids : List String) (L : List Event)
    (h : PairShape ids L) (n i res : String) (s : Bool)
    (hmem : Event.tool_result n i res s ∈ L) : i ∈ ids := by
  induction h with
  | nil X hX =>
    rw [List.all_eq_true] at hX
    have := hX _ hmem
    simp [Event.isToolEvent] at this
  | cons i' nm args nm2 res' s' X ids rest hX hrest ih =>
    rw [List.mem_append] at hmem
    rcases hmem with hmem | hmem
    · rw [List.all_eq_true] at hX
      have := hX _ hmem
      simp [Event.isToolEvent] at this
    · rw [List.mem_cons] at hmem
      rcases hmem with heq | hmem
      · exact absurd heq (by simp)
      · rw [List.mem_cons] at hmem
        rcases hmem with heq | hmem
        · injection heq with h1 h2 h3 h4
          subst h2
          exact List.mem_cons_self _ _
        · exact List.mem_cons_of_mem _ (ih hmem)

/-- In a paired event list with distinct call ids, every `tool_result`
found at position `k` is preceded by exactly one `tool_call` carrying its
call id. -/
lemma pairShape_count (ids : List String) (L : List Event)
    (h : PairShape ids L) :
    ids.Nodup → ∀ k n i res s, L[k]? = some (Event.tool_result n i res s) →
      ((L.take k).countP (isCallEventWith i)) = 1 := by
  induction h with
  | nil X hX =>
    intro _ k n i res s hk
    have hmem := List.getElem?_mem hk
    rw [List.all_eq_true] at hX
    have := hX _ hmem
    simp [Event.isToolEvent] at this
  | cons i' nm args nm2 res' s' X ids rest hX hrest ih =>
    intro hnd k n i res s hk
    have hi'nin : i' ∉ ids := (List.nodup_cons.mp hnd).1
    have hnd' : ids.Nodup := (List.nodup_cons.mp hnd).2
    by_cases h1 : k < X.length
    · rw [List.getElem?_append_left h1] at hk
      have hmem := List.getElem?_mem hk
      rw [List.all_eq_true] at hX
      have := hX _ hmem
      simp [Event.isToolEvent] at this
    · push_neg at h1
      rw [List.getElem?_append_right h1] at hk
      rcases hd : k - X.length with _ | k1
      · rw [hd, List.getElem?_cons_zero] at hk
        simp at hk
      · rcases k1 with _ | k2
        · rw [hd, List.getElem?_cons_succ, List.getElem?_cons_zero] at hk
          rw [Option.some.injEq] at hk
          injection hk with e1 e2 e3 e4
          subst e2
          have hkval : k = X.length + 1 := by omega
          rw [hkval, List.take_append_eq_append_take,
            List.take_of_length_le (by omega),
            show X.length + 1 - X.length = 1 from by omega]
          rw [List.countP_append,
            nontool_countP_call X hX i',
            show (Event.tool_call nm args i' ::
              Event.tool_result nm2 i' res' s' :: rest).take 1 =
              [Event.tool_call nm args i'] from rfl]
          simp [List.countP_cons, isCallEventWith]
        · rw [hd, List.getElem?_cons_succ, List.getElem?_cons_succ] at hk
          have hin : i ∈ ids :=
            pairShape_res_mem ids rest hrest n i res s (List.getElem?_mem hk)
          have hne : (i' == i) = false := by
            rw [beq_eq_false_iff_ne]
            intro heq
            exact hi'nin (heq ▸ hin)
          have hcnt := ih hnd' k2 n i res s hk
          have hkval : k = X.length + (k2 + 2) := by omega
          rw [hkval, List.take_append_eq_append_take,
            List.take_of_length_le (by omega),
            show X.length + (k2 + 2) - X.length = k2 + 2 from by omega]
          rw [List.countP_append, nontool_countP_call X hX i,
            show (Event.tool_call nm args i' ::
              Event.tool_result nm2 i' res' s' :: rest).take (k2 + 2) =
              Event.tool_call nm args i' :: Event.tool_result nm2 i' res' s' ::
                rest.take k2 from rfl]
          rw [List.countP_cons, List.countP_cons, hcnt]
          simp [isCallEventWith, hne]

/-- Streaming mode: one turn's tool loop yields paired
`tool_call`/`tool_result` events. -/
lemma runCalls_stream_shape (tex : String → String → String)
    (artType : String → Option String) (cs : List ToolCallSpec) :
    ∃ ids, PairShape ids (runCalls true tex artType cs).1 := by
  induction cs with
  | nil => exact ⟨[], PairShape.nil [] rfl⟩
  | cons c cs ih =>
    simp only [runCalls]
    rcases hc : c.argsErr with _ | e
    · simp only [hc]
      obtain ⟨ids, hids⟩ := ih
      refine ⟨c.id :: ids, ?_⟩
      have hone : PairShape [c.id]
          (streamCallEvents artType c (tex c.name c.args)) := by
        rcases h2 : artType (tex c.name c.args) with _ | t
        · show PairShape [c.id]
            ([Event.thinking ("I need to use the \x27" ++ c.name ++
                "\x27 tool to help answer your question.")] ++
              Event.tool_call c.name c.args c.id ::
              Event.tool_result c.name c.id (tex c.name c.args)
                (successFlag (tex c.name c.args)) ::
              (match artType (tex c.name c.args) with
               | some t => [Event.thinking ("I\x27ll now create a detailed " ++
                   underscoreToSpace t ++ " document for you...")]
               | none => []))
          refine PairShape.cons c.id c.name c.args c.name (tex c.name c.args)
            (successFlag (tex c.name c.args)) _ [] _ rfl (PairShape.nil _ ?_)
          rw [h2]
          rfl
        · show PairShape [c.id]
            ([Event.thinking ("I need to use the \x27" ++ c.name ++
                "\x27 tool to help answer your question.")] ++
              Event.tool_call c.name c.args c.id ::
              Event.tool_result c.name c.id (tex c.name c.args)
                (successFlag (tex c.name c.args)) ::
              (match artType (tex c.name c.args) with
               | some t => [Event.thinking ("I\x27ll now create a detailed " ++
                   underscoreToSpace t ++ " document for you...")]
               | none => []))
          refine PairShape.cons c.id c.name c.args c.name (tex c.name c.args)
            (successFlag (tex c.name c.args)) _ [] _ rfl (PairShape.nil _ ?_)
          rw [h2]
          rfl
      show PairShape (c.id :: ids)
        ((if true then streamCallEvents artType c (tex c.name c.args)
          else aggCallEvents c (tex c.name c.args)) ++
          (runCalls true tex artType cs).1)
      rw [if_pos rfl]
      exact pairShape_append [c.id] ids _ _ hone hids
    · exact ⟨[], by simp only [hc]; exact PairShape.nil [] rfl⟩

/-- Streaming mode: the whole loop's event list is paired. -/
lemma loopGo_stream_shape (tex : String → String → String)
    (artType : String → Option String) (turns : Nat → ModelTurn) :
    ∀ fuel i msgs acc used trace,
      ∃ ids, PairShape ids
        (loopGo true tex artType turns fuel i msgs acc used trace).events := by
  intro fuel
  induction fuel with
  | zero =>
    intro i msgs acc used trace
    exact ⟨[], PairShape.nil _ rfl⟩
  | succ n ih =>
    intro i msgs acc used trace
    rcases hti : turns i with ds | ⟨ds, cs⟩ | e
    · refine ⟨[], ?_⟩
      have hev : (loopGo true tex artType turns (n + 1) i msgs acc used
          trace).events = (ds.filter (fun d => d ≠ "")).map Event.content ++
          [Event.done (acc ++ String.join ds) used] := by
        simp [loopGo, hti]
      rw [hev]
      refine PairShape.nil _ ?_
      rw [List.all_append, all_map_content (fun e => !e.isToolEvent)
        (fun _ => rfl)]
      rfl
    · by_cases hcs : cs.isEmpty
      · obtain ⟨ids, hids⟩ := ih (i + 1) msgs acc used (trace ++ [msgs])
        refine ⟨ids, ?_⟩
        have hev : (loopGo true tex artType turns (n + 1) i msgs acc used
            trace).events = (ds.filter (fun d => d ≠ "")).map Event.content ++
            (loopGo true tex artType turns n (i + 1) msgs acc used
              (trace ++ [msgs])).events := by
          simp [loopGo, hti, hcs]
        rw [hev]
        exact pairShape_nontool_prepend _ _ ids
          (all_map_content (fun e => !e.isToolEvent) (fun _ => rfl) _) hids
      · rcases herr : (runCalls true tex artType cs).2.2.2 with _ | e2
        · obtain ⟨ids1, hids1⟩ := runCalls_stream_shape tex artType cs
          obtain ⟨ids2, hids2⟩ := ih (i + 1)
            (msgs ++ [Msg.assistantToolCalls (String.join ds) cs] ++
              (runCalls true tex artType cs).2.1)
            (acc ++ String.join ds) (used ++ (runCalls true tex artType cs).2.2.1)
            (trace ++ [msgs])
          refine ⟨ids1 ++ ids2, ?_⟩
          have hev : (loopGo true tex artType turns (n + 1) i msgs acc used
              trace).events = (ds.filter (fun d => d ≠ "")).map Event.content ++
              ((runCalls true tex artType cs).1 ++
                (loopGo true tex artType turns n (i + 1)
                  (msgs ++ [Msg.assistantToolCalls (String.join ds) cs] ++
                    (runCalls true tex artType cs).2.1)
                  (acc ++ String.join ds)
                  (used ++ (runCalls true tex artType cs).2.2.1)
                  (trace ++ [msgs])).events) := by
            simp [loopGo, hti, hcs, herr, List.append_assoc]
          rw [hev]
          exact pairShape_nontool_prepend _ _ _
            (all_map_content (fun e => !e.isToolEvent) (fun _ => rfl) _)
            (pairShape_append ids1 ids2 _ _ hids1 hids2)
        · obtain ⟨ids1, hids1⟩ := runCalls_stream_shape tex artType cs
          refine ⟨ids1, ?_⟩
          have hev : (loopGo true tex artType turns (n + 1) i msgs acc used
              trace).events = (ds.filter (fun d => d ≠ "")).map Event.content ++
              ((runCalls true tex artType cs).1 ++
                [Event.error ("Error: " ++ e2)]) := by
            simp [loopGo, hti, hcs, herr, List.append_assoc]
          rw [hev]
          refine pairShape_nontool_prepend _ _ _
            (all_map_content (fun e => !e.isToolEvent) (fun _ => rfl) _) ?_
          have := pairShape_append ids1 [] _ [Event.error ("Error: " ++ e2)]
            hids1 (PairShape.nil _ rfl)
          rw [List.append_nil] at this
          exact this
    · exact ⟨[], by simp only [loopGo, hti]; exact PairShape.nil _ rfl⟩

/-- Aggregate mode never emits `tool_call` events at all. -/
lemma loopGo_agg_callIds (tex : String → String → String)
    (artType : String → Option String) (turns : Nat → ModelTurn) :
    ∀ fuel i msgs acc used trace,
      callIdsOf (loopGo false tex artType turns fuel i msgs acc used
        trace).events = [] := by
  intro fuel
  induction fuel with
  | zero => intro i msgs acc used trace; rfl
  | succ n ih =>
    intro i msgs acc used trace
    rcases hti : turns i with ds | ⟨ds, cs⟩ | e
    · simp only [loopGo, hti]
      rfl
    · by_cases hcs : cs.isEmpty
      · have hev : (loopGo false tex artType turns (n + 1) i msgs acc used
            trace).events = [Event.content (String.join ds),
            Event.done (acc ++ String.join ds) used] := by
          simp [loopGo, hti, hcs]
        rw [hev]
        rfl
      · rcases herr : (runCalls false tex artType cs).2.2.2 with _ | e2
        · have hev : (loopGo false tex artType turns (n + 1) i msgs acc used
              trace).events = (runCalls false tex artType cs).1 ++
              (loopGo false tex artType turns n (i + 1)
                (msgs ++ [Msg.assistantToolCalls (String.join ds) cs] ++
                  (runCalls false tex artType cs).2.1)
                (acc ++ String.join ds)
                (used ++ (runCalls false tex artType cs).2.2.1)
                (trace ++ [msgs])).events := by
            simp [loopGo, hti, hcs, herr]
          rw [hev, callIdsOf_append, runCalls_agg_no_call_events, ih,
            List.append_nil]
        · have hev : (loopGo false tex artType turns (n + 1) i msgs acc used
              trace).events = (runCalls false tex artType cs).1 ++
              [Event.error ("Error: " ++ e2)] := by
            simp [loopGo, hti, hcs, herr]
          rw [hev, callIdsOf_append, runCalls_agg_no_call_events]
          rfl
    · simp only [loopGo, hti]
      rfl

/-- The trace of message lists at successive model invocations: the first
new entry is the entry state, and whenever an invocation follows a
nonempty tool-call turn, its message list extends the previous one with
the assistant tool-call message and one tool message per call, in order. -/
lemma loopGo_trace (st : Bool) (tex : String → String → String)
    (artType : String → Option String) (turns : Nat → ModelTurn) :
    ∀ fuel i msgs acc used trace,
      ∃ T, (loopGo st tex artType turns fuel i msgs acc used trace).trace =
          trace ++ T ∧
        (T = [] ∨ T[0]? = some msgs) ∧
        (∀ k mk mk1, T[k]? = some mk → T[k + 1]? = some mk1 →
          ∀ ds cs, turns (i + k) = .toolCalls ds cs → cs ≠ [] →
            mk1 = mk ++ [Msg.assistantToolCalls (String.join ds) cs] ++
              cs.map (fun c => Msg.tool c.id (tex c.name c.args))) := by
  intro fuel
  induction fuel with
  | zero =>
    intro i msgs acc used trace
    refine ⟨[], by rw [List.append_nil]; rfl, Or.inl rfl, ?_⟩
    intro k mk mk1 hk hk1 ds cs hds hne
    simp at hk
  | succ n ih =>
    intro i msgs acc used trace
    rcases hti : turns i with ds0 | ⟨ds0, cs0⟩ | e0
    · refine ⟨[msgs], by simp only [loopGo, hti], Or.inr rfl, ?_⟩
      intro k mk mk1 hk hk1 ds cs hds hne
      rw [List.getElem?_cons_succ] at hk1
      simp at hk1
    · by_cases hcs : cs0.isEmpty
      · have hcs0 : cs0 = [] := List.isEmpty_iff.mp hcs
        cases st
        · refine ⟨[msgs], ?_, Or.inr rfl, ?_⟩
          · have : (loopGo false tex artType turns (n + 1) i msgs acc used
                trace).trace = trace ++ [msgs] := by
              simp [loopGo, hti, hcs]
            exact this
          · intro k mk mk1 hk hk1 ds cs hds hne
            rw [List.getElem?_cons_succ] at hk1
            simp at hk1
        · obtain ⟨T', hT', hhead', hstep'⟩ := ih (i + 1) msgs acc used
            (trace ++ [msgs])
          refine ⟨msgs :: T', ?_, Or.inr (by simp), ?_⟩
          · have : (loopGo true tex artType turns (n + 1) i msgs acc used
                trace).trace = (loopGo true tex artType turns n (i + 1) msgs
                acc used (trace ++ [msgs])).trace := by
              simp [loopGo, hti, hcs]
            rw [this, hT', List.append_assoc]
            rfl
          · intro k mk mk1 hk hk1 ds cs hds hne
            cases k with
            | zero =>
              exfalso
              rw [Nat.add_zero] at hds
              rw [hds] at hti
              injection hti with hds0 hcs0'
              exact hne (hcs0' ▸ hcs0)
            | succ k =>
              rw [List.getElem?_cons_succ] at hk hk1
              have hidx : i + (k + 1) = (i + 1) + k := by omega
              rw [hidx] at hds
              exact hstep' k mk mk1 hk hk1 ds cs hds hne
      · rcases herr : (runCalls st tex artType cs0).2.2.2 with _ | e2
        · have hok := runCalls_none_ok st tex artType cs0 herr
          obtain ⟨T', hT', hhead', hstep'⟩ := ih (i + 1)
            (msgs ++ [Msg.assistantToolCalls (String.join ds0) cs0] ++
              (runCalls st tex artType cs0).2.1)
            (acc ++ String.join ds0)
            (used ++ (runCalls st tex artType cs0).2.2.1)
            (trace ++ [msgs])
          refine ⟨msgs :: T', ?_, Or.inr (by simp), ?_⟩
          · have : (loopGo st tex artType turns (n + 1) i msgs acc used
                trace).trace = (loopGo st tex artType turns n (i + 1)
                (msgs ++ [Msg.assistantToolCalls (String.join ds0) cs0] ++
                  (runCalls st tex artType cs0).2.1)
                (acc ++ String.join ds0)
                (used ++ (runCalls st tex artType cs0).2.2.1)
                (trace ++ [msgs])).trace := by
              simp [loopGo, hti, hcs, herr]
            rw [this, hT', List.append_assoc]
            rfl
          · intro k mk mk1 hk hk1 ds cs hds hne
            cases k with
            | zero =>
              rw [Nat.add_zero] at hds
              rw [hds] at hti
              injection hti with hds0 hcs0'
              subst hds0
              subst hcs0'
              rw [List.getElem?_cons_zero, Option.some.injEq] at hk
              subst hk
              rw [List.getElem?_cons_succ] at hk1
              rcases hhead' with hnil | hhead'
              · rw [hnil] at hk1
                simp at hk1
              · rw [hhead', Option.some.injEq] at hk1
                subst hk1
                rw [show (runCalls st tex artType cs).2.1 =
                  cs.map (fun c => Msg.tool c.id (tex c.name c.args)) from by
                    rw [runCalls_ok st tex artType cs hok]]
            | succ k =>
              rw [List.getElem?_cons_succ] at hk hk1
              have hidx : i + (k + 1) = (i + 1) + k := by omega
              rw [hidx] at hds
              exact hstep' k mk mk1 hk hk1 ds cs hds hne
        · refine ⟨[msgs], ?_, Or.inr rfl, ?_⟩
          · have : (loopGo st tex artType turns (n + 1) i msgs acc used
                trace).trace = trace ++ [msgs] := by
              simp [loopGo, hti, hcs, herr]
            exact this
          · intro k mk mk1 hk hk1 ds cs hds hne
            rw [List.getElem?_cons_succ] at hk1
            simp at hk1
    · refine ⟨[msgs], by simp only [loopGo, hti], Or.inr rfl, ?_⟩
      intro k mk mk1 hk hk1 ds cs hds hne
      rw [List.getElem?_cons_succ] at hk1
      simp at hk1

/-- C1 (amended): in streaming mode the `tool_call` and `tool_result`
events pair up — their call-id sequences are equal, and (when the model
issues distinct call ids) each `tool_result` is preceded by exactly one
`tool_call` with its call id.  In aggregate (non-streaming) mode, however,
no `tool_call` events are emitted at all (see the counterexample).  In both
modes, every nonempty tool-call turn whose execution completes has its
assistant tool-call message and one result message per call, keyed by call
id and in call order, appended to the conversation before the next model
invocation. -/
theorem C1_tool_event_pairing (tex : String → String → String)
    (artType : String → Option String) (turns : Nat → ModelTurn)
    (maxIter : Nat) (initMsgs : List Msg) :
    callIdsOf (generate_response_with_tools true tex artType turns maxIter
        initMsgs).events =
      resIdsOf (generate_response_with_tools true tex artType turns maxIter
        initMsgs).events ∧
    ((callIdsOf (generate_response_with_tools true tex artType turns maxIter
        initMsgs).events).Nodup →
      ∀ k n i res s,
        (generate_response_with_tools true tex artType turns maxIter
          initMsgs).events[k]? = some (.tool_result n i res s) →
        (((generate_response_with_tools true tex artType turns maxIter
          initMsgs).events.take k).countP (isCallEventWith i)) = 1) ∧
    callIdsOf (generate_response_with_tools false tex artType turns maxIter
      initMsgs).events = [] ∧
    (∀ st : Bool, ∀ j mj mj1 ds cs,
      (generate_response_with_tools st tex artType turns maxIter
        initMsgs).trace[j]? = some mj →
      (generate_response_with_tools st tex artType turns maxIter
        initMsgs).trace[j + 1]? = some mj1 →
      turns j = .toolCalls ds cs → cs ≠ [] →
      mj1 = mj ++ [Msg.assistantToolCalls (String.join ds) cs] ++
        cs.map (fun c => Msg.tool c.id (tex c.name c.args))) := by
  obtain ⟨ids, hshape⟩ := loopGo_stream_shape tex artType turns maxIter 0
    initMsgs "" [] []
  have hshape' : PairShape ids (generate_response_with_tools true tex artType
      turns maxIter initMsgs).events := by
    show PairShape ids (Event.thinking analyzingText ::
      (loopGo true tex artType turns maxIter 0 initMsgs "" [] []).events)
    exact pairShape_nontool_prepend [Event.thinking analyzingText] _ ids rfl
      hshape
  obtain ⟨hcall, hres⟩ := pairShape_ids ids _ hshape'
  refine ⟨?_, ?_, ?_, ?_⟩
  · rw [hcall, hres]
  · intro hnd k n i res s hk
    rw [hcall] at hnd
    exact pairShape_count ids _ hshape' hnd k n i res s hk
  · show callIdsOf (Event.thinking analyzingText ::
      (loopGo false tex artType turns maxIter 0 initMsgs "" [] []).events) = []
    exact loopGo_agg_callIds tex artType turns maxIter 0 initMsgs "" [] []
  · intro st j mj mj1 ds cs hj hj1 hds hne
    obtain ⟨T, hT, hhead, hstep⟩ := loopGo_trace st tex artType turns maxIter
      0 initMsgs "" [] []
    have hTr : (generate_response_with_tools st tex artType turns maxIter
        initMsgs).trace = T := by
      show (loopGo st tex artType turns maxIter 0 initMsgs "" [] []).trace = T
      rw [hT]
      rfl
    rw [hTr] at hj hj1
    have hds' : turns (0 + j) = .toolCalls ds cs := by
      rw [Nat.zero_add]
      exact hds
    exact hstep j mj mj1 hj hj1 ds cs hds' hne

theorem C1_tool_event_pairing_witness :
    callIdsOf (generate_response_with_tools true cxTex cxArt cxTurns 5
        []).events =
      resIdsOf (generate_response_with_tools true cxTex cxArt cxTurns 5
        []).events ∧
    (((generate_response_with_tools true cxTex cxArt cxTurns 5
        []).events.take 4).countP (isCallEventWith "call_1")) = 1 ∧
    callIdsOf (generate_response_with_tools false cxTex cxArt cxTurns 5
      []).events = [] :=
  ⟨(C1_tool_event_pairing cxTex cxArt cxTurns 5 []).1,
   (C1_tool_event_pairing cxTex cxArt cxTurns 5 []).2.1 (by decide) 4
     "tavily_web_search" "call_1" "search results" true (by decide),
   (C1_tool_event_pairing cxTex cxArt cxTurns 5 []).2.2.1⟩

/-- C1 counterexample: in the aggregate delivery mode the generator emits a
`tool_result` event for the executed call but no `tool_call` event, so the
two counts differ. -/
theorem C1_missing_call_events_cx :
    ¬ ((callIdsOf (generate_response_with_tools false cxTex cxArt cxTurns 5
          []).events).length =
       (resIdsOf (generate_response_with_tools false cxTex cxArt cxTurns 5
          []).events).length) := by
  decide

end HueAI
